import Mathlib

/-!
# Ethernet frame codec (`02 - Ethernet/ethernet.h`)

A shallow embedding of the frame codec of the repository: the byte buffer owned
by `EthernetFrame`, `setFrame` / `parseFrame`, the header and checksum readers
and `calculateCRC32`.

Modelling conventions

* a byte (`uint8_t`) is a `Fin 256`; a byte range handed over as pointer and
  length is a `List Byte`;
* `size_t` arithmetic is arithmetic on `Nat` modulo `2 ^ 64` (`sizeAdd`,
  `sizeSub`), `uint32_t` values are `Nat`s below `2 ^ 32`;
* `reinterpret_cast` reads of `uint16_t` / `uint32_t` depend on the byte order
  of the host, which is a parameter (`Endian`) of every function that reads one;
* a read outside the `MAX_FRAME_SIZE` bytes of the buffer has no defined
  result in C++; the model reports it as `Outcome.outsideBuffer` (or `none` for
  the pure readers);
* the `while` loop of `parseFrame` is run with fuel `MAX_FRAME_SIZE`; `none`
  from `parseLoop` / `parseFrame` / `setFrame` means that the fuel ran out;
* the accessors of `Dot1qTag` act on the `data` member of the tag, a
  `List Byte`; they give `none` when they would touch bytes outside of it;
* the first version of the codec (`01 - Ethernet/ethernet.h`), which has the
  EtherType in its header and does not parse, is embedded in the namespace `V1`.
-/

namespace NetworkingForDevs

/-! ## Bytes and machine integers -/

/-- One `uint8_t`. -/
abbrev Byte := Fin 256

/-- Byte order of the host on which the codec runs. -/
inductive Endian where
  | little
  | big
  deriving DecidableEq, Repr

/-- The modulus of `size_t` arithmetic (`2 ^ 64`). -/
def SIZE_MOD : Nat := 18446744073709551616

/-- Addition of two `size_t` values. -/
def sizeAdd (a b : Nat) : Nat := (a + b) % SIZE_MOD

/-- Subtraction `a - b` of two `size_t` values: it wraps around to
`2 ^ 64 - (b - a)` when `a < b`. -/
def sizeSub (a b : Nat) : Nat := if b ≤ a then a - b else SIZE_MOD - (b - a)

/-- The bytes `[off, off + n)` of a buffer, `none` when the range is not inside it. -/
def readBytes (buf : List Byte) (off n : Nat) : Option (List Byte) :=
  if off + n ≤ buf.length then some ((buf.drop off).take n) else none

/-- The unsigned integer a host of the given byte order sees in a run of bytes
(`*reinterpret_cast<const uintN_t*>(p)`). -/
def uintOfBytes : Endian → List Byte → Nat
  | Endian.little, bs => bs.foldr (fun b acc => b.val + 256 * acc) 0
  | Endian.big, bs => bs.foldl (fun acc b => 256 * acc + b.val) 0

/-! ## CRC-32 (`EthernetFrame::calculateCRC32`) -/

/-- The inner loop `for (int j = 0; j < 8; ++j)` of `calculateCRC32`, with the
number of rounds still to run. -/
def crcBitLoop : Nat → Nat → Nat
  | 0, crc => crc
  | j + 1, crc =>
    crcBitLoop j (if crc &&& 1 ≠ 0 then (crc >>> 1) ^^^ 0xEDB88320 else crc >>> 1)

/-- The outer loop `for (size_t i = 0; i < len; ++i)` of `calculateCRC32`. -/
def crcByteLoop : List Byte → Nat → Nat
  | [], crc => crc
  | b :: rest, crc => crcByteLoop rest (crcBitLoop 8 (crc ^^^ b.val))

/-- Bitwise complement `~x` of a `uint32_t`. -/
def notU32 (x : Nat) : Nat := 4294967295 - x % 4294967296

/-- The function `calculateCRC32(data, len)` over the `len` bytes at `data`. -/
def calculateCRC32 (data : List Byte) : Nat :=
  notU32 (crcByteLoop data 0xFFFFFFFF)

/-- One round of the checksum as the specification words it: shift right by
one, and XOR the polynomial in when the bit shifted out was set. -/
def isoHdlcRound (acc : Nat) : Nat :=
  (acc / 2) ^^^ (if acc % 2 = 1 then 0xEDB88320 else 0)

/-- One byte of the checksum as the specification words it: XOR the byte into
the low 8 bits of the accumulator, then 8 rounds. -/
def isoHdlcByte (acc : Nat) (b : Byte) : Nat :=
  isoHdlcRound^[8] ((acc / 256) * 256 + ((acc % 256) ^^^ b.val))

/-- CRC-32/ISO-HDLC written from the words of the specification: start from
`0xFFFFFFFF`, fold the bytes in, complement all 32 bits at the end. -/
def crc32IsoHdlc (data : List Byte) : Nat :=
  (data.foldl isoHdlcByte 0xFFFFFFFF) ^^^ 0xFFFFFFFF

/-! ## Data model -/

/-- A MAC address: `std::array<uint8_t, 6>`. -/
abbrev MACAddress := List Byte

/-- The packed 12-byte `EthernetFrameHeader`. -/
structure EthernetFrameHeader where
  destination : MACAddress
  source : MACAddress
  deriving DecidableEq, Repr

/-- A payload of the frame: an object of class `EthernetPayload` (type and
data) or of its subclass `Dot1qTag` (type `0x8100`, data of 4 bytes). -/
inductive EthernetPayload where
  | generic (type : Nat) (data : List Byte)
  | dot1qTag (data : List Byte)
  deriving DecidableEq, Repr

/-- The exceptions of the codec, all `std::out_of_range` in the source:
`frameTooLarge` is "Frame size exceeds maximum allowed length",
`truncatedSegment` is "Invalid payload length",
`dot1qTagSize` is "Dot1qTag data size must be 4 bytes". -/
inductive Thrown where
  | frameTooLarge
  | truncatedSegment
  | dot1qTagSize
  deriving DecidableEq, Repr

/-- How a call ends: it returns, it throws, or it reads outside the buffer. -/
inductive Outcome where
  | returned
  | thrown (e : Thrown)
  | outsideBuffer
  deriving DecidableEq, Repr

/-- The private state of `EthernetFrame`: buffer, length and payloads. -/
structure EthernetFrame where
  buffer : List Byte
  length : Nat
  payloads : List EthernetPayload
  deriving DecidableEq, Repr

/-- The constant `EthernetFrame::MAX_FRAME_SIZE`. -/
def MAX_FRAME_SIZE : Nat := 1518

/-- The constructor `EthernetFrame()`: a zeroed buffer and length 0. -/
def EthernetFrame.new : EthernetFrame :=
  { buffer := List.replicate MAX_FRAME_SIZE 0, length := 0, payloads := [] }

/-- The method `EthernetPayload::getType`. -/
def EthernetPayload.getType : EthernetPayload → Nat
  | EthernetPayload.generic t _ => t
  | EthernetPayload.dot1qTag _ => 0x8100

/-- The method `EthernetPayload::getData`. -/
def EthernetPayload.getData : EthernetPayload → List Byte
  | EthernetPayload.generic _ d => d
  | EthernetPayload.dot1qTag d => d

/-- The override `Dot1qTag::setData` on a freshly made `Dot1qTag`. -/
def Dot1qTag.setData (data : List Byte) : Except Thrown EthernetPayload :=
  if data.length ≠ 4 then Except.error Thrown.dot1qTagSize
  else Except.ok (EthernetPayload.dot1qTag data)

/-! ## Parsing (`EthernetFrame::parseFrame`, `EthernetFrame::setFrame`) -/

/-- What one pass through the `while` of `parseFrame` does. -/
inductive LoopStep where
  | exit
  | next (offset : Nat) (payloads : List EthernetPayload)
  | stop (o : Outcome) (payloads : List EthernetPayload)
  deriving DecidableEq, Repr

/-- The loop condition and body of `parseFrame` at one offset. -/
def loopBody (bo : Endian) (buf : List Byte) (length offset : Nat)
    (payloads : List EthernetPayload) : LoopStep :=
  if ¬ (offset < sizeSub length 4) then LoopStep.exit
  else if sizeAdd offset 2 > sizeSub length 4 then
    LoopStep.stop (Outcome.thrown Thrown.truncatedSegment) payloads
  else
    match readBytes buf offset 2 with
    | none => LoopStep.stop Outcome.outsideBuffer payloads
    | some tb =>
      let type := uintOfBytes bo tb
      let offset2 := sizeAdd offset 2
      if type = 0x8100 then
        match readBytes buf offset2 4 with
        | none => LoopStep.stop Outcome.outsideBuffer payloads
        | some d =>
          match Dot1qTag.setData d with
          | Except.error e => LoopStep.stop (Outcome.thrown e) payloads
          | Except.ok p => LoopStep.next (sizeAdd offset2 4) (payloads ++ [p])
      else
        let payloadLength := sizeSub (sizeSub length offset2) 4
        match readBytes buf offset2 payloadLength with
        | none => LoopStep.stop Outcome.outsideBuffer payloads
        | some d =>
          LoopStep.next (sizeAdd offset2 payloadLength)
            (payloads ++ [EthernetPayload.generic type d])

/-- The `while` loop of `parseFrame`, run with fuel. -/
def parseLoop (bo : Endian) (buf : List Byte) (length : Nat) :
    Nat → Nat → List EthernetPayload → Option (Outcome × List EthernetPayload)
  | 0, _, _ => none
  | fuel + 1, offset, payloads =>
    match loopBody bo buf length offset payloads with
    | LoopStep.exit => some (Outcome.returned, payloads)
    | LoopStep.stop o ps => some (o, ps)
    | LoopStep.next offset2 ps => parseLoop bo buf length fuel offset2 ps

/-- The state (offset, payloads) with which the `while` of `parseFrame` is
entered for the `n`-th time, counted from 0; `none` when the loop has ended
before. -/
def loopHead (bo : Endian) (buf : List Byte) (length : Nat) :
    Nat → Option (Nat × List EthernetPayload)
  | 0 => some (12, [])
  | n + 1 =>
    match loopHead bo buf length n with
    | none => none
    | some (offset, payloads) =>
      match loopBody bo buf length offset payloads with
      | LoopStep.next offset2 ps => some (offset2, ps)
      | _ => none

/-- The method `parseFrame`: clear the payloads, start at offset
`sizeof(EthernetFrameHeader)` and run the loop. -/
def parseFrame (bo : Endian) (f : EthernetFrame) : Option (Outcome × EthernetFrame) :=
  match parseLoop bo f.buffer f.length MAX_FRAME_SIZE 12 [] with
  | none => none
  | some (o, ps) => some (o, { f with payloads := ps })

/-- The call `std::memcpy(buffer.get(), data, len)`. -/
def memcpy (buffer data : List Byte) : List Byte :=
  data ++ buffer.drop data.length

/-- The method `setFrame(data, len)`. -/
def setFrame (bo : Endian) (f : EthernetFrame) (data : List Byte) :
    Option (Outcome × EthernetFrame) :=
  if data.length > MAX_FRAME_SIZE then some (Outcome.thrown Thrown.frameTooLarge, f)
  else parseFrame bo { f with buffer := memcpy f.buffer data, length := data.length }

/-- The method `getHeader`: the first 12 bytes of the buffer seen as a header. -/
def getHeader (f : EthernetFrame) : EthernetFrameHeader :=
  { destination := f.buffer.take 6, source := (f.buffer.drop 6).take 6 }

/-- The method `getPayloads`. -/
def getPayloads (f : EthernetFrame) : List EthernetPayload := f.payloads

/-- The method `getFCS`: the `uint32_t` at `buffer + length - 4`. -/
def getFCS (bo : Endian) (f : EthernetFrame) : Option Nat :=
  (readBytes f.buffer (sizeSub f.length 4) 4).map (uintOfBytes bo)

/-- The method `validateFCS`. -/
def validateFCS (bo : Endian) (f : EthernetFrame) : Option Bool :=
  match readBytes f.buffer 0 (sizeSub f.length 4), getFCS bo f with
  | some covered, some fcs => some (decide (calculateCRC32 covered = fcs))
  | _, _ => none

/-- The 9 ASCII bytes of "123456789". -/
def checkInput : List Byte := [0x31, 0x32, 0x33, 0x34, 0x35, 0x36, 0x37, 0x38, 0x39]

/-! ## Sample frames -/

/-- A 28-byte frame as a little-endian host tags it: 12 header bytes, the type
tag `0x8100` with its 4 bytes, the type tag `0x0800` with 4 payload bytes, and
the CRC-32 of these 24 bytes. -/
def sampleFrame : List Byte :=
  [0x01, 0x02, 0x03, 0x04, 0x05, 0x06, 0x0a, 0x0b, 0x0c, 0x0d, 0x0e, 0x0f,
   0x00, 0x81, 0x00, 0x64, 0x08, 0x00, 0x00, 0x08, 0xde, 0xad, 0xbe, 0xef,
   0x38, 0xe8, 0xc0, 0x4b]

/-- The state of a fresh frame after `setFrame` of `sampleFrame`. -/
def sampleLoaded : EthernetFrame :=
  { buffer := memcpy EthernetFrame.new.buffer sampleFrame
    length := 28
    payloads := [EthernetPayload.dot1qTag [0x00, 0x64, 0x08, 0x00],
      EthernetPayload.generic 0x0800 [0xde, 0xad, 0xbe, 0xef]] }

/-- The state of a fresh frame after `setFrame` of 16 bytes `0xff`. -/
def priorLoaded : EthernetFrame :=
  { buffer := memcpy EthernetFrame.new.buffer (List.replicate 16 0xff)
    length := 16
    payloads := [] }

/-- Eight bytes `0x11`: less than a header. -/
def shortData : List Byte := List.replicate 8 0x11

/-- On a little-endian host: 12 header bytes, the type tag `0x8100`, and the 4
bytes of the checksum right behind it (18 bytes). -/
def tagThenChecksum : List Byte :=
  [0x01, 0x02, 0x03, 0x04, 0x05, 0x06, 0x0a, 0x0b, 0x0c, 0x0d, 0x0e, 0x0f,
   0x00, 0x81, 0xaa, 0xbb, 0xcc, 0xdd]

/-- On a big-endian host: 12 header bytes, the type tag `0x8100`, 2 more bytes
and the 4 bytes of the checksum (20 bytes). -/
def tagTwoBytesChecksum : List Byte :=
  [0x01, 0x02, 0x03, 0x04, 0x05, 0x06, 0x0a, 0x0b, 0x0c, 0x0d, 0x0e, 0x0f,
   0x81, 0x00, 0x00, 0x64, 0xaa, 0xbb, 0xcc, 0xdd]

/-- On a little-endian host: 12 header bytes, one complete tag `0x8100` with
its 4 bytes, 1 byte, and the 4 bytes of the checksum (23 bytes). -/
def tagThenOneByte : List Byte :=
  [0x01, 0x02, 0x03, 0x04, 0x05, 0x06, 0x0a, 0x0b, 0x0c, 0x0d, 0x0e, 0x0f,
   0x00, 0x81, 0x00, 0x64, 0x08, 0x00, 0x45, 0xaa, 0xbb, 0xcc, 0xdd]

/-! ## Shapes of the payload sequence -/

/-- The payloads are `Dot1qTag`s only. -/
def allDot1q (ps : List EthernetPayload) : Prop :=
  ∀ p ∈ ps, ∃ d, p = EthernetPayload.dot1qTag d

/-- The payloads are `Dot1qTag`s followed by at most one generic payload. -/
def dot1qThenGeneric (ps : List EthernetPayload) : Prop :=
  ∃ tags rest, ps = tags ++ rest ∧ allDot1q tags ∧
    (rest = [] ∨ ∃ t d, rest = [EthernetPayload.generic t d])

/-! ## Writing integers and `Dot1qTag` accessors -/

/-- The `n` bytes of the unsigned integer `v`, least significant byte first. -/
def littleBytes : Nat → Nat → List Byte
  | 0, _ => []
  | n + 1, v => ⟨v % 256, Nat.mod_lt v (by decide)⟩ :: littleBytes n (v / 256)

/-- The `n` bytes a host of the given byte order stores for the unsigned
integer `v` (`*reinterpret_cast<uintN_t*>(p) = v`). -/
def bytesOfUint : Endian → Nat → Nat → List Byte
  | Endian.little, n, v => littleBytes n v
  | Endian.big, n, v => (littleBytes n v).reverse

/-- The buffer with the bytes `bs` stored at `[off, off + bs.length)`, `none`
when that range is not inside it. -/
def writeBytes (buf : List Byte) (off : Nat) (bs : List Byte) : Option (List Byte) :=
  if off + bs.length ≤ buf.length then some (buf.take off ++ bs ++ buf.drop (off + bs.length))
  else none

/-- The method `Dot1qTag::getTagProtocolIdentifier` on the data of the tag. -/
def Dot1qTag.getTagProtocolIdentifier (bo : Endian) (data : List Byte) : Option Nat :=
  (readBytes data 0 2).map (uintOfBytes bo)

/-- The method `Dot1qTag::getTagControlInformation` on the data of the tag. -/
def Dot1qTag.getTagControlInformation (bo : Endian) (data : List Byte) : Option Nat :=
  (readBytes data 2 2).map (uintOfBytes bo)

/-- The method `Dot1qTag::getPriorityCodePoint`, a `uint8_t`. -/
def Dot1qTag.getPriorityCodePoint (bo : Endian) (data : List Byte) : Option Nat :=
  (Dot1qTag.getTagControlInformation bo data).map (fun tci => ((tci >>> 13) &&& 0x07) % 256)

/-- The method `Dot1qTag::getDropEligibleIndicator`, a `bool`. -/
def Dot1qTag.getDropEligibleIndicator (bo : Endian) (data : List Byte) : Option Bool :=
  (Dot1qTag.getTagControlInformation bo data).map (fun tci => decide ((tci >>> 12) &&& 0x01 ≠ 0))

/-- The method `Dot1qTag::getVLANIdentifier`, a `uint16_t`. -/
def Dot1qTag.getVLANIdentifier (bo : Endian) (data : List Byte) : Option Nat :=
  (Dot1qTag.getTagControlInformation bo data).map (fun tci => (tci &&& 0x0FFF) % 65536)

/-- The method `Dot1qTag::setTagControlInformation(uint16_t tci)`. -/
def Dot1qTag.setTagControlInformation (bo : Endian) (data : List Byte) (tci : Nat) :
    Option (List Byte) :=
  writeBytes data 2 (bytesOfUint bo 2 (tci % 65536))

/-- The method `Dot1qTag::setPriorityCodePoint(uint8_t pcp)`. -/
def Dot1qTag.setPriorityCodePoint (bo : Endian) (data : List Byte) (pcp : Nat) :
    Option (List Byte) :=
  match Dot1qTag.getTagControlInformation bo data with
  | none => none
  | some tci =>
    Dot1qTag.setTagControlInformation bo data ((tci &&& 0x1FFF) ||| ((pcp % 256) <<< 13))

/-- The method `Dot1qTag::setDropEligibleIndicator(bool dei)`. -/
def Dot1qTag.setDropEligibleIndicator (bo : Endian) (data : List Byte) (dei : Bool) :
    Option (List Byte) :=
  match Dot1qTag.getTagControlInformation bo data with
  | none => none
  | some tci =>
    Dot1qTag.setTagControlInformation bo data
      ((tci &&& 0xEFFF) ||| ((if dei then 1 else 0) <<< 12))

/-- The method `Dot1qTag::setVLANIdentifier(uint16_t vid)`. -/
def Dot1qTag.setVLANIdentifier (bo : Endian) (data : List Byte) (vid : Nat) :
    Option (List Byte) :=
  match Dot1qTag.getTagControlInformation bo data with
  | none => none
  | some tci =>
    Dot1qTag.setTagControlInformation bo data ((tci &&& 0xF000) ||| ((vid % 65536) &&& 0x0FFF))

/-- A call of one of the three field mutators of `Dot1qTag`. -/
inductive TciWrite where
  | priorityCodePoint (pcp : Nat)
  | dropEligibleIndicator (dei : Bool)
  | vlanIdentifier (vid : Nat)
  deriving DecidableEq, Repr

/-- One mutator call on the data of a tag. -/
def Dot1qTag.write (bo : Endian) (data : List Byte) : TciWrite → Option (List Byte)
  | TciWrite.priorityCodePoint pcp => Dot1qTag.setPriorityCodePoint bo data pcp
  | TciWrite.dropEligibleIndicator dei => Dot1qTag.setDropEligibleIndicator bo data dei
  | TciWrite.vlanIdentifier vid => Dot1qTag.setVLANIdentifier bo data vid

/-- A sequence of mutator calls on the data of a tag, first call first. -/
def Dot1qTag.writeAll (bo : Endian) : List Byte → List TciWrite → Option (List Byte)
  | data, [] => some data
  | data, w :: ws =>
    match Dot1qTag.write bo data w with
    | none => none
    | some data2 => Dot1qTag.writeAll bo data2 ws

/-! ## Re-serialisation and bit flips -/

/-- The bytes of the payloads on the wire: for each payload its 2-byte type tag,
as the host stores it, followed by its data. -/
def segmentBytes (bo : Endian) : List EthernetPayload → List Byte
  | [] => []
  | p :: ps => bytesOfUint bo 2 p.getType ++ p.getData ++ segmentBytes bo ps

/-- The number of bytes of `segmentBytes`. -/
def wireLength : List EthernetPayload → Nat
  | [] => 0
  | p :: ps => 2 + p.getData.length + wireLength ps

/-- The frame written out again: the 12 header bytes, the payloads, and the 4
bytes that `getFCS` reads. -/
def reserialise (bo : Endian) (f : EthernetFrame) : List Byte :=
  (getHeader f).destination ++ (getHeader f).source ++ segmentBytes bo f.payloads ++
    (f.buffer.drop (f.length - 4)).take 4

/-- The byte with bit `j % 8` flipped. -/
def flipByteBit (x : Byte) (j : Nat) : Byte :=
  ⟨(x.val ^^^ (1 <<< (j % 8))) % 256, Nat.mod_lt _ (by decide)⟩

/-- The data with bit `k` of its last 4 bytes flipped: bit `k % 8` of the byte
at index `length - 4 + k / 8`. -/
def flipChecksumBit (b : List Byte) (k : Nat) : List Byte :=
  b.set (b.length - 4 + k / 8) (flipByteBit (b.getD (b.length - 4 + k / 8) 0) k)

/-! ## More sample frames -/

/-- On a little-endian host: 12 header bytes, the type tag `0x8100`, 4 tag
bytes whose last two hold the TCI `0xb0c8` (pcp 5, dei 1, vid 200), and the
CRC-32 of these 18 bytes (22 bytes). -/
def taggedFrame : List Byte :=
  [0x01, 0x02, 0x03, 0x04, 0x05, 0x06, 0x0a, 0x0b, 0x0c, 0x0d, 0x0e, 0x0f,
   0x00, 0x81, 0x12, 0x34, 0xc8, 0xb0, 0xdd, 0x26, 0x96, 0x87]

/-- Eight bytes followed by their CRC-32 as a little-endian host stores it (12 bytes). -/
def shortChecked : List Byte :=
  [0x01, 0x02, 0x03, 0x04, 0x05, 0x06, 0x0a, 0x0b, 0x32, 0xa7, 0x6d, 0x13]

/-- On a little-endian host: 12 header bytes, the type tag `0x8100`, and the
CRC-32 of these 14 bytes right behind it (18 bytes). -/
def tagThenCrc : List Byte :=
  [0x01, 0x02, 0x03, 0x04, 0x05, 0x06, 0x0a, 0x0b, 0x0c, 0x0d, 0x0e, 0x0f,
   0x00, 0x81, 0x06, 0xf1, 0x35, 0x13]

/-- The state of a fresh frame after `setFrame` of `shortData`. -/
def shortLoaded : EthernetFrame :=
  { buffer := memcpy EthernetFrame.new.buffer shortData
    length := 8
    payloads := [] }

/-- The TCI after a mutator call on a tag whose TCI was `t`, in arithmetic:
the field of the call replaced by the value reduced to the width of the field
(3 bits, 1 bit, 12 bits), the other fields kept. -/
def tciAfter (t : Nat) : TciWrite → Nat
  | TciWrite.priorityCodePoint pcp => t % 8192 + (pcp % 8) * 8192
  | TciWrite.dropEligibleIndicator dei => t / 8192 * 8192 + (if dei then 4096 else 0) + t % 4096
  | TciWrite.vlanIdentifier vid => t / 4096 * 4096 + vid % 4096

/-! ## A flipped bit anywhere, and the reads of one pass of the loop -/

/-- The data with bit `k` flipped: bit `k % 8` of the byte at index `k / 8`. -/
def flipBitAt (b : List Byte) (k : Nat) : List Byte :=
  b.set (k / 8) (flipByteBit (b.getD (k / 8) 0) k)

/-- The ranges (first index, number of bytes) of the buffer that one pass of
the loop of `parseFrame` reads, in the order of the reads: the type tag, and
then the 4 bytes of a `Dot1qTag` or the bytes of a generic payload. The
conditions are those of `loopBody`. -/
def loopBodyReads (bo : Endian) (buf : List Byte) (length offset : Nat) : List (Nat × Nat) :=
  if ¬ (offset < sizeSub length 4) then []
  else if sizeAdd offset 2 > sizeSub length 4 then []
  else
    match readBytes buf offset 2 with
    | none => [(offset, 2)]
    | some tb =>
      let type := uintOfBytes bo tb
      let offset2 := sizeAdd offset 2
      if type = 0x8100 then [(offset, 2), (offset2, 4)]
      else
        let payloadLength := sizeSub (sizeSub length offset2) 4
        [(offset, 2), (offset2, payloadLength)]

/-- The `size_t` subtractions (minuend, subtrahend) that one pass of the loop
of `parseFrame` evaluates: `length - 4` in the loop condition and in the bounds
check, and `length - offset` and `(length - offset) - 4` for the length of a
generic payload. -/
def loopBodySubtractions (bo : Endian) (buf : List Byte) (length offset : Nat) :
    List (Nat × Nat) :=
  if ¬ (offset < sizeSub length 4) then [(length, 4)]
  else if sizeAdd offset 2 > sizeSub length 4 then [(length, 4), (length, 4)]
  else
    match readBytes buf offset 2 with
    | none => [(length, 4), (length, 4)]
    | some tb =>
      let type := uintOfBytes bo tb
      let offset2 := sizeAdd offset 2
      if type = 0x8100 then [(length, 4), (length, 4)]
      else [(length, 4), (length, 4), (length, offset2), (sizeSub length offset2, 4)]

/-! ## The first version of the codec (`01 - Ethernet/ethernet.h`) -/

namespace V1

/-- The packed 14-byte `EthernetFrameHeader` of the first version, with the
EtherType. -/
structure EthernetFrameHeader where
  destination : MACAddress
  source : MACAddress
  type : Nat
  deriving DecidableEq, Repr

/-- The private state of the `EthernetFrame` of the first version: buffer and length. -/
structure EthernetFrame where
  buffer : List Byte
  length : Nat
  deriving DecidableEq, Repr

/-- The constructor `EthernetFrame()` of the first version. -/
def EthernetFrame.new : EthernetFrame :=
  { buffer := List.replicate MAX_FRAME_SIZE 0, length := 0 }

/-- The method `setFrame(data, len)` of the first version: size check and copy,
no parsing. -/
def setFrame (f : EthernetFrame) (data : List Byte) : Outcome × EthernetFrame :=
  if data.length > MAX_FRAME_SIZE then (Outcome.thrown Thrown.frameTooLarge, f)
  else (Outcome.returned, { buffer := memcpy f.buffer data, length := data.length })

/-- The method `getHeader` of the first version: the first 14 bytes of the
buffer seen as a header. -/
def getHeader (bo : Endian) (f : EthernetFrame) : EthernetFrameHeader :=
  { destination := f.buffer.take 6, source := (f.buffer.drop 6).take 6,
    type := uintOfBytes bo ((f.buffer.drop 12).take 2) }

/-- The method `getPayloadSize`: `length - sizeof(EthernetFrameHeader) - sizeof(uint32_t)`. -/
def getPayloadSize (f : EthernetFrame) : Nat :=
  sizeSub (sizeSub f.length 14) 4

/-- The bytes at `getPayload()`, `getPayloadSize()` of them; `none` when they
are not inside the buffer. -/
def getPayload (f : EthernetFrame) : Option (List Byte) :=
  readBytes f.buffer 14 (getPayloadSize f)

/-- The inner loop of `calculateCRC32` of the first version. -/
def crcBitLoop : Nat → Nat → Nat
  | 0, crc => crc
  | j + 1, crc =>
    crcBitLoop j (if crc &&& 1 ≠ 0 then (crc >>> 1) ^^^ 0xEDB88320 else crc >>> 1)

/-- The outer loop of `calculateCRC32` of the first version. -/
def crcByteLoop : List Byte → Nat → Nat
  | [], crc => crc
  | b :: rest, crc => crcByteLoop rest (crcBitLoop 8 (crc ^^^ b.val))

/-- The function `calculateCRC32(data, len)` of the first version. -/
def calculateCRC32 (data : List Byte) : Nat :=
  notU32 (crcByteLoop data 0xFFFFFFFF)

/-- The method `getFCS` of the first version. -/
def getFCS (bo : Endian) (f : EthernetFrame) : Option Nat :=
  (readBytes f.buffer (sizeSub f.length 4) 4).map (uintOfBytes bo)

/-- The method `validateFCS` of the first version. -/
def validateFCS (bo : Endian) (f : EthernetFrame) : Option Bool :=
  match readBytes f.buffer 0 (sizeSub f.length 4), getFCS bo f with
  | some covered, some fcs => some (decide (calculateCRC32 covered = fcs))
  | _, _ => none

end V1

/-! ## Sample frames without a tag -/

/-- On a little-endian host: 12 header bytes, the type tag `0x0800`, 4 payload
bytes and 4 checksum bytes (22 bytes). -/
def plainFrame : List Byte :=
  [0x01, 0x02, 0x03, 0x04, 0x05, 0x06, 0x0a, 0x0b, 0x0c, 0x0d, 0x0e, 0x0f,
   0x00, 0x08, 0xde, 0xad, 0xbe, 0xef, 0xaa, 0xbb, 0xcc, 0xdd]

/-! ## Lemmas on the checksum -/

theorem crcRound_eq (c : Nat) :
    (if c &&& 1 ≠ 0 then (c >>> 1) ^^^ 0xEDB88320 else c >>> 1) = isoHdlcRound c := by
  unfold isoHdlcRound
  rw [Nat.and_one_is_mod, Nat.shiftRight_eq_div_pow]
  rcases Nat.mod_two_eq_zero_or_one c with h | h <;> simp [h]

theorem crcBitLoop_eq_iterate (j c : Nat) : crcBitLoop j c = isoHdlcRound^[j] c := by
  induction j generalizing c with
  | zero => rfl
  | succ j ih => rw [crcBitLoop, crcRound_eq, ih, Function.iterate_succ_apply]

theorem xor_low_bits (n acc b : Nat) (hb : b < 2 ^ n) :
    acc ^^^ b = 2 ^ n * (acc / 2 ^ n) + ((acc % 2 ^ n) ^^^ b) := by
  have hlow : (acc % 2 ^ n) ^^^ b < 2 ^ n :=
    Nat.xor_lt_two_pow (Nat.mod_lt _ (Nat.two_pow_pos n)) hb
  apply Nat.eq_of_testBit_eq
  intro i
  rw [Nat.testBit_mul_pow_two_add _ hlow, ← Nat.shiftRight_eq_div_pow]
  by_cases hi : i < n
  · simp [hi, Nat.testBit_mod_two_pow]
  · have hbi : b.testBit i = false :=
      Nat.testBit_lt_two_pow (lt_of_lt_of_le hb
        (Nat.pow_le_pow_right (by norm_num) (by omega)))
    have : n + (i - n) = i := by omega
    simp [hi, hbi, Nat.testBit_shiftRight, this]

theorem xor_low_byte (acc b : Nat) (hb : b < 256) :
    acc ^^^ b = (acc / 256) * 256 + ((acc % 256) ^^^ b) := by
  have key := xor_low_bits 8 acc b (by norm_num; exact hb)
  norm_num at key
  rw [key, Nat.mul_comm]

theorem isoHdlcRound_lt (c : Nat) (h : c < 2 ^ 32) : isoHdlcRound c < 2 ^ 32 := by
  unfold isoHdlcRound
  apply Nat.xor_lt_two_pow
  · omega
  · split <;> norm_num

theorem iterate_isoHdlcRound_lt (j c : Nat) (h : c < 2 ^ 32) : isoHdlcRound^[j] c < 2 ^ 32 := by
  induction j generalizing c with
  | zero => exact h
  | succ j ih => rw [Function.iterate_succ_apply]; exact ih _ (isoHdlcRound_lt c h)

theorem crcByteLoop_eq_foldl (data : List Byte) (c : Nat) :
    crcByteLoop data c = data.foldl isoHdlcByte c := by
  induction data generalizing c with
  | nil => rfl
  | cons b rest ih =>
    rw [crcByteLoop, List.foldl_cons, ih, crcBitLoop_eq_iterate, xor_low_byte c b.val b.isLt]
    rfl

theorem crcByteLoop_lt (data : List Byte) (c : Nat) (h : c < 2 ^ 32) :
    crcByteLoop data c < 2 ^ 32 := by
  induction data generalizing c with
  | nil => exact h
  | cons b rest ih =>
    rw [crcByteLoop, crcBitLoop_eq_iterate]
    apply ih
    apply iterate_isoHdlcRound_lt
    exact Nat.xor_lt_two_pow h (lt_trans b.isLt (by norm_num))

theorem notU32_eq_xor (x : Nat) (h : x < 2 ^ 32) : notU32 x = x ^^^ 0xFFFFFFFF := by
  unfold notU32
  have hx : x % 4294967296 = x := Nat.mod_eq_of_lt (by norm_num at h ⊢; exact h)
  rw [hx]
  apply Nat.eq_of_testBit_eq
  intro i
  have h1 : 4294967295 - x = 2 ^ 32 - (x + 1) := by norm_num; omega
  have h2 : (4294967295 : Nat) = 2 ^ 32 - 1 := by norm_num
  rw [h1, Nat.testBit_two_pow_sub_succ h, Nat.testBit_xor, h2, Nat.testBit_two_pow_sub_one]
  by_cases hi : i < 32
  · simp [hi]
  · have : x.testBit i = false :=
      Nat.testBit_lt_two_pow (lt_of_lt_of_le h (Nat.pow_le_pow_right (by norm_num) (by omega)))
    simp [hi, this]

theorem calculateCRC32_lt (data : List Byte) : calculateCRC32 data < 2 ^ 32 := by
  unfold calculateCRC32 notU32
  norm_num
  omega

/-! ## Lemmas on `size_t` arithmetic and buffer reads -/

theorem sizeSub_eq (a b : Nat) (hb : b ≤ a) : sizeSub a b = a - b := by
  unfold sizeSub
  rw [if_pos hb]

theorem sizeAdd_eq (a b : Nat) (h : a + b < SIZE_MOD) : sizeAdd a b = a + b := by
  unfold sizeAdd
  exact Nat.mod_eq_of_lt h

theorem readBytes_eq (buf : List Byte) (off n : Nat) (h : off + n ≤ buf.length) :
    readBytes buf off n = some ((buf.drop off).take n) := by
  unfold readBytes
  rw [if_pos h]

theorem readBytes_length (buf d : List Byte) (off n : Nat) (h : readBytes buf off n = some d) :
    d.length = n ∧ off + n ≤ buf.length := by
  unfold readBytes at h
  split at h
  · injection h with h
    subst h
    refine ⟨?_, by assumption⟩
    rw [List.length_take, List.length_drop]
    omega
  · contradiction

theorem readBytes_append (b rest : List Byte) (off n : Nat) (h : off + n ≤ b.length) :
    readBytes (b ++ rest) off n = readBytes b off n := by
  have h2 : off + n ≤ (b ++ rest).length := by rw [List.length_append]; omega
  rw [readBytes_eq _ _ _ h, readBytes_eq _ _ _ h2,
    List.drop_append_of_le_length (by omega),
    List.take_append_of_le_length (by rw [List.length_drop]; omega)]

/-! ## Lemmas on one pass of the parse loop -/

/-- With at least 4 bytes loaded, the loop is left once the offset has reached
the checksum region. -/
theorem loopBody_exit (bo : Endian) (buf : List Byte) (len off : Nat)
    (ps : List EthernetPayload) (h4 : 4 ≤ len) (h : len - 4 ≤ off) :
    loopBody bo buf len off ps = LoopStep.exit := by
  unfold loopBody
  rw [sizeSub_eq len 4 h4, if_pos (by omega)]

/-- With exactly one byte left before the checksum region the bounds check throws. -/
theorem loopBody_one_byte (bo : Endian) (buf : List Byte) (len off : Nat)
    (ps : List EthernetPayload) (hlen : len ≤ 1518) (h : off + 5 = len) :
    loopBody bo buf len off ps =
      LoopStep.stop (Outcome.thrown Thrown.truncatedSegment) ps := by
  unfold loopBody
  rw [sizeSub_eq len 4 (by omega),
    sizeAdd_eq off 2 (by unfold SIZE_MOD; omega), if_neg (by omega), if_pos (by omega)]

/-- A type tag `0x8100` read with at least 2 bytes before the checksum region
makes a `Dot1qTag` of the 4 bytes that follow it. -/
theorem loopBody_dot1q (bo : Endian) (buf : List Byte) (len off : Nat)
    (ps : List EthernetPayload) (hlen : len ≤ 1518) (hbuf : len ≤ buf.length)
    (h : off + 6 ≤ len) (ht : uintOfBytes bo ((buf.drop off).take 2) = 0x8100) :
    loopBody bo buf len off ps =
      LoopStep.next (off + 6) (ps ++ [EthernetPayload.dot1qTag ((buf.drop (off + 2)).take 4)]) := by
  have hd : ((buf.drop (off + 2)).take 4).length = 4 := by
    rw [List.length_take, List.length_drop]; omega
  unfold loopBody
  rw [sizeSub_eq len 4 (by omega),
    sizeAdd_eq off 2 (by unfold SIZE_MOD; omega), if_neg (by omega), if_neg (by omega),
    readBytes_eq buf off 2 (by omega)]
  dsimp only
  rw [if_pos ht, readBytes_eq buf (off + 2) 4 (by omega)]
  simp only [Dot1qTag.setData, hd, ne_eq, not_true_eq_false, if_false]
  rw [sizeAdd_eq (off + 2) 4 (by unfold SIZE_MOD; omega)]

/-- Any other type tag read with at least 2 bytes before the checksum region
makes a generic payload of all the bytes up to the checksum region. -/
theorem loopBody_generic (bo : Endian) (buf : List Byte) (len off : Nat)
    (ps : List EthernetPayload) (hlen : len ≤ 1518) (hbuf : len ≤ buf.length)
    (h : off + 6 ≤ len) (ht : uintOfBytes bo ((buf.drop off).take 2) ≠ 0x8100) :
    loopBody bo buf len off ps =
      LoopStep.next (len - 4)
        (ps ++ [EthernetPayload.generic (uintOfBytes bo ((buf.drop off).take 2))
          ((buf.drop (off + 2)).take (len - (off + 2) - 4))]) := by
  unfold loopBody
  rw [sizeSub_eq len 4 (by omega),
    sizeAdd_eq off 2 (by unfold SIZE_MOD; omega), if_neg (by omega), if_neg (by omega),
    readBytes_eq buf off 2 (by omega)]
  dsimp only
  rw [if_neg ht, sizeSub_eq len (off + 2) (by omega),
    sizeSub_eq (len - (off + 2)) 4 (by omega),
    readBytes_eq buf (off + 2) _ (by omega)]
  dsimp only
  rw [sizeAdd_eq (off + 2) _ (by unfold SIZE_MOD; omega)]
  congr 1
  omega

theorem slice_append (b rest : List Byte) (off n : Nat) (h : off + n ≤ b.length) :
    ((b ++ rest).drop off).take n = (b.drop off).take n := by
  rw [List.drop_append_of_le_length (by omega),
    List.take_append_of_le_length (by rw [List.length_drop]; omega)]

/-- With at least 4 bytes loaded, one pass of the loop reads only loaded bytes:
what lies in the buffer behind them does not matter. -/
theorem loopBody_append (bo : Endian) (b rest : List Byte) (off : Nat)
    (ps : List EthernetPayload) (h4 : 4 ≤ b.length) (hlen : b.length ≤ 1518) :
    loopBody bo (b ++ rest) b.length off ps = loopBody bo b b.length off ps := by
  have hbuf : b.length ≤ (b ++ rest).length := by rw [List.length_append]; omega
  by_cases h1 : b.length - 4 ≤ off
  · rw [loopBody_exit _ _ _ _ _ h4 h1, loopBody_exit _ _ _ _ _ h4 h1]
  · by_cases h2 : off + 5 = b.length
    · rw [loopBody_one_byte _ _ _ _ _ hlen h2, loopBody_one_byte _ _ _ _ _ hlen h2]
    · have h3 : off + 6 ≤ b.length := by omega
      have ht : ((b ++ rest).drop off).take 2 = (b.drop off).take 2 :=
        slice_append b rest off 2 (by omega)
      by_cases h8 : uintOfBytes bo ((b.drop off).take 2) = 0x8100
      · rw [loopBody_dot1q _ _ _ _ _ hlen hbuf h3 (by rw [ht]; exact h8),
          loopBody_dot1q _ _ _ _ _ hlen (le_refl _) h3 h8,
          slice_append b rest (off + 2) 4 (by omega)]
      · rw [loopBody_generic _ _ _ _ _ hlen hbuf h3 (by rw [ht]; exact h8),
          loopBody_generic _ _ _ _ _ hlen (le_refl _) h3 h8, ht,
          slice_append b rest (off + 2) _ (by omega)]

/-- A pass that goes on to another one has read its type tag inside the buffer
and has moved the offset forward by at least 2. -/
theorem loopBody_next_bounds (bo : Endian) (buf : List Byte) (len off off2 : Nat)
    (ps ps2 : List EthernetPayload) (hbuf : buf.length ≤ 1518)
    (h : loopBody bo buf len off ps = LoopStep.next off2 ps2) :
    off + 2 ≤ off2 ∧ off + 2 ≤ buf.length ∧ off2 ≤ buf.length := by
  unfold loopBody at h
  split at h
  · contradiction
  split at h
  · contradiction
  split at h
  · contradiction
  rename_i tb htb
  have h1 := (readBytes_length _ _ _ _ htb).2
  have e1 : sizeAdd off 2 = off + 2 := sizeAdd_eq off 2 (by unfold SIZE_MOD; omega)
  dsimp only at h
  rw [e1] at h
  split at h
  · split at h
    · contradiction
    rename_i d hd
    have h2 := (readBytes_length _ _ _ _ hd).2
    split at h
    · contradiction
    injection h with h h'
    rw [sizeAdd_eq (off + 2) 4 (by unfold SIZE_MOD; omega)] at h
    omega
  · split at h
    · contradiction
    rename_i d hd
    have h2 := (readBytes_length _ _ _ _ hd).2
    injection h with h h'
    rw [sizeAdd_eq (off + 2) _ (by unfold SIZE_MOD; omega)] at h
    omega

/-- A pass that ends the call does so by the exception of the bounds check,
by that of `Dot1qTag::setData`, or by a read outside the buffer, and leaves the
payloads as they were. -/
theorem loopBody_stop_cases (bo : Endian) (buf : List Byte) (len off : Nat)
    (ps ps2 : List EthernetPayload) (o : Outcome)
    (h : loopBody bo buf len off ps = LoopStep.stop o ps2) :
    ps2 = ps ∧ (o = Outcome.thrown Thrown.truncatedSegment ∨ o = Outcome.outsideBuffer ∨
      o = Outcome.thrown Thrown.dot1qTagSize) := by
  unfold loopBody at h
  split at h
  · cases h
  split at h
  · cases h; exact ⟨rfl, Or.inl rfl⟩
  split at h
  · cases h; exact ⟨rfl, Or.inr (Or.inl rfl)⟩
  dsimp only at h
  split at h
  · split at h
    · cases h; exact ⟨rfl, Or.inr (Or.inl rfl)⟩
    split at h
    · rename_i e he
      unfold Dot1qTag.setData at he
      split at he
      · cases he; cases h; exact ⟨rfl, Or.inr (Or.inr rfl)⟩
      · cases he
    · cases h
  · split at h
    · cases h; exact ⟨rfl, Or.inr (Or.inl rfl)⟩
    · cases h

/-- A pass that goes on has appended one payload: a `Dot1qTag`, or a generic
payload, and then the offset stands at the checksum region. -/
theorem loopBody_next_cases (bo : Endian) (buf : List Byte) (len off off2 : Nat)
    (ps ps2 : List EthernetPayload) (hlen : len < SIZE_MOD)
    (h : loopBody bo buf len off ps = LoopStep.next off2 ps2) :
    off < sizeSub len 4 ∧
      ((∃ d, ps2 = ps ++ [EthernetPayload.dot1qTag d]) ∨
        (∃ t d, ps2 = ps ++ [EthernetPayload.generic t d] ∧ off2 = sizeSub len 4)) := by
  unfold loopBody at h
  split at h
  · cases h
  rename_i hcond
  refine ⟨by omega, ?_⟩
  split at h
  · cases h
  rename_i hcheck
  split at h
  · cases h
  dsimp only at h
  split at h
  · split at h
    · cases h
    split at h
    · cases h
    · rename_i p hp
      unfold Dot1qTag.setData at hp
      split at hp
      · cases hp
      · cases hp
        cases h
        exact Or.inl ⟨_, rfl⟩
  · split at h
    · cases h
    · cases h
      refine Or.inr ⟨_, _, rfl, ?_⟩
      unfold sizeAdd sizeSub at *
      unfold SIZE_MOD at *
      split_ifs at * <;> omega

/-! ## Lemmas on the parse loop -/

theorem parseLoop_append (bo : Endian) (b rest : List Byte) (h4 : 4 ≤ b.length)
    (hlen : b.length ≤ 1518) (fuel off : Nat) (ps : List EthernetPayload) :
    parseLoop bo (b ++ rest) b.length fuel off ps = parseLoop bo b b.length fuel off ps := by
  induction fuel generalizing off ps with
  | zero => rfl
  | succ n ih =>
    rw [parseLoop, parseLoop, loopBody_append bo b rest off ps h4 hlen]
    split
    · rfl
    · rfl
    · exact ih _ _

theorem loopHead_append (bo : Endian) (b rest : List Byte) (h4 : 4 ≤ b.length)
    (hlen : b.length ≤ 1518) (n : Nat) :
    loopHead bo (b ++ rest) b.length n = loopHead bo b b.length n := by
  induction n with
  | zero => rfl
  | succ n ih =>
    rw [loopHead, loopHead, ih]
    split
    · rfl
    · rw [loopBody_append bo b rest _ _ h4 hlen]

/-- The loop ends within its fuel: every pass that goes on moves the offset
forward by at least 2 inside the buffer. -/
theorem parseLoop_total (bo : Endian) (buf : List Byte) (len : Nat) (hbuf : buf.length ≤ 1518)
    (fuel off : Nat) (ps : List EthernetPayload) (h1 : 1 ≤ fuel)
    (h2 : buf.length + 2 ≤ off + 2 * fuel) :
    ∃ r, parseLoop bo buf len fuel off ps = some r := by
  induction fuel generalizing off ps with
  | zero => omega
  | succ n ih =>
    rw [parseLoop]
    split
    · exact ⟨_, rfl⟩
    · exact ⟨_, rfl⟩
    · rename_i off2 ps2 hnext
      have hb := loopBody_next_bounds bo buf len off off2 ps ps2 hbuf hnext
      exact ih off2 ps2 (by omega) (by omega)

/-- The loop never raises the exception of the size check of `setFrame`. -/
theorem parseLoop_ne_frameTooLarge (bo : Endian) (buf : List Byte) (len fuel off : Nat)
    (ps ps2 : List EthernetPayload) :
    parseLoop bo buf len fuel off ps ≠ some (Outcome.thrown Thrown.frameTooLarge, ps2) := by
  induction fuel generalizing off ps with
  | zero => intro h; simp [parseLoop] at h
  | succ n ih =>
    rw [parseLoop]
    split
    · intro h; simp at h
    · rename_i o ps3 hstop
      intro h
      injection h with h
      injection h with h h'
      subst h
      rcases (loopBody_stop_cases _ _ _ _ _ _ _ hstop).2 with hc | hc | hc <;> cases hc
    · exact ih _ _

/-- Running the loop from the start passes through every state that `loopHead`
lists, at the cost of one unit of fuel a pass. -/
theorem parseLoop_of_loopHead (bo : Endian) (buf : List Byte) (len n off : Nat)
    (ps : List EthernetPayload) (h : loopHead bo buf len n = some (off, ps)) (fuel : Nat) :
    parseLoop bo buf len (fuel + n) 12 [] = parseLoop bo buf len fuel off ps := by
  induction n generalizing off ps fuel with
  | zero =>
    rw [loopHead] at h
    injection h with h
    injection h with h h'
    subst h; subst h'
    rfl
  | succ n ih =>
    rw [loopHead] at h
    split at h
    · contradiction
    · rename_i off1 ps1 hprev
      split at h
      · rename_i off2 ps2 hnext
        injection h with h
        injection h with h h'
        subst h; subst h'
        have e : fuel + (n + 1) = fuel + 1 + n := by omega
        rw [e, ih off1 ps1 hprev (fuel + 1), parseLoop, hnext]
      · contradiction

/-- The offset of the `n`-th pass is at least `12 + 2 * n`. -/
theorem loopHead_offset_ge (bo : Endian) (buf : List Byte) (len : Nat) (hbuf : buf.length ≤ 1518)
    (n off : Nat) (ps : List EthernetPayload) (h : loopHead bo buf len n = some (off, ps)) :
    12 + 2 * n ≤ off := by
  induction n generalizing off ps with
  | zero =>
    rw [loopHead] at h
    injection h with h
    injection h with h h'
    omega
  | succ n ih =>
    rw [loopHead] at h
    split at h
    · contradiction
    · rename_i off1 ps1 hprev
      split at h
      · rename_i off2 ps2 hnext
        injection h with h
        injection h with h h'
        have := ih off1 ps1 hprev
        have := loopBody_next_bounds bo buf len off1 off2 ps1 ps2 hbuf hnext
        omega
      · contradiction

theorem allDot1q_append_dot1q (ps : List EthernetPayload) (d : List Byte) (h : allDot1q ps) :
    allDot1q (ps ++ [EthernetPayload.dot1qTag d]) := by
  intro p hp
  rw [List.mem_append, List.mem_singleton] at hp
  rcases hp with hp | hp
  · exact h p hp
  · exact ⟨d, hp⟩

/-- The invariant of the loop of `parseFrame`: the payloads are `Dot1qTag`s
only, or a generic payload has been appended to such and the loop is about to
be left. -/
theorem parseLoop_order (bo : Endian) (buf : List Byte) (len : Nat) (hlen : len < SIZE_MOD)
    (fuel off : Nat) (ps ps2 : List EthernetPayload)
    (hinv : allDot1q ps ∨ (¬ (off < sizeSub len 4) ∧ dot1qThenGeneric ps))
    (h : parseLoop bo buf len fuel off ps = some (Outcome.returned, ps2)) :
    dot1qThenGeneric ps2 := by
  induction fuel generalizing off ps with
  | zero => rw [parseLoop] at h; cases h
  | succ n ih =>
    rw [parseLoop] at h
    split at h
    · injection h with h
      injection h with h1 h2
      subst h2
      rcases hinv with hinv | hinv
      · exact ⟨ps, [], by rw [List.append_nil], hinv, Or.inl rfl⟩
      · exact hinv.2
    · rename_i o ps3 hstop
      injection h with h
      injection h with h1 h2
      subst h1
      rcases (loopBody_stop_cases _ _ _ _ _ _ _ hstop).2 with hc | hc | hc <;> cases hc
    · rename_i off2 ps3 hnext
      have hc := loopBody_next_cases bo buf len off off2 ps ps3 hlen hnext
      rcases hinv with hinv | hinv
      · rcases hc.2 with ⟨d, hd⟩ | ⟨t, d, hd, hoff⟩
        · exact ih off2 ps3 (Or.inl (by rw [hd]; exact allDot1q_append_dot1q ps d hinv)) h
        · exact ih off2 ps3
            (Or.inr ⟨by omega, ps, [EthernetPayload.generic t d], hd, hinv, Or.inr ⟨t, d, rfl⟩⟩) h
      · exact absurd hc.1 hinv.1

/-! ## Lemmas on `setFrame` -/

theorem memcpy_length (buffer data : List Byte) (hb : buffer.length = 1518)
    (hd : data.length ≤ 1518) : (memcpy buffer data).length = 1518 := by
  unfold memcpy
  rw [List.length_append, List.length_drop]
  omega

/-- The state that `setFrame` leaves behind when the size check passes: the
data copied over the start of the buffer, its length, and the payloads that the
loop has built by the time it ends. -/
theorem setFrame_eq_some (bo : Endian) (f g : EthernetFrame) (b : List Byte) (o : Outcome)
    (hmax : b.length ≤ 1518) :
    setFrame bo f b = some (o, g) ↔
      ∃ ps, parseLoop bo (memcpy f.buffer b) b.length MAX_FRAME_SIZE 12 [] = some (o, ps) ∧
        g = { buffer := memcpy f.buffer b, length := b.length, payloads := ps } := by
  unfold setFrame parseFrame
  rw [if_neg (by unfold MAX_FRAME_SIZE; omega)]
  dsimp only
  constructor
  · intro h
    split at h
    · cases h
    · rename_i o2 ps hp
      injection h with h
      injection h with h1 h2
      subst h1
      exact ⟨ps, hp, h2.symm⟩
  · rintro ⟨ps, hp, hg⟩
    rw [hp, hg]

/-- A load that does not throw `frameTooLarge` had at most 1518 bytes. -/
theorem setFrame_length_le (bo : Endian) (f g : EthernetFrame) (b : List Byte) (o : Outcome)
    (h : setFrame bo f b = some (o, g)) (ho : o ≠ Outcome.thrown Thrown.frameTooLarge) :
    b.length ≤ 1518 := by
  by_contra hc
  unfold setFrame at h
  rw [if_pos (by unfold MAX_FRAME_SIZE; omega)] at h
  injection h with h
  injection h with h1 h2
  exact ho h1.symm

/-- With at least 4 bytes loaded the loop of `setFrame` sees the loaded bytes only. -/
theorem setFrame_eq_some_loaded (bo : Endian) (f g : EthernetFrame) (b : List Byte)
    (o : Outcome) (h4 : 4 ≤ b.length) (hmax : b.length ≤ 1518) :
    setFrame bo f b = some (o, g) ↔
      ∃ ps, parseLoop bo b b.length MAX_FRAME_SIZE 12 [] = some (o, ps) ∧
        g = { buffer := memcpy f.buffer b, length := b.length, payloads := ps } := by
  rw [setFrame_eq_some bo f g b o hmax]
  unfold memcpy
  rw [parseLoop_append bo b _ h4 hmax]

/-! ## The claims -/

/-- Claim C1: after a `setFrame` of at least 12 and at most 1518 bytes that
returns, `getHeader` gives the first 6 bytes of the data as destination and the
next 6 bytes as source, in the order of the data. -/
theorem setFrame_getHeader (bo : Endian) (f g : EthernetFrame) (b : List Byte)
    (h12 : 12 ≤ b.length) (hmax : b.length ≤ MAX_FRAME_SIZE)
    (h : setFrame bo f b = some (Outcome.returned, g)) :
    (getHeader g).destination = b.take 6 ∧ (getHeader g).source = (b.drop 6).take 6 := by
  unfold MAX_FRAME_SIZE at hmax
  obtain ⟨ps, -, hg⟩ := (setFrame_eq_some bo f g b _ hmax).1 h
  subst hg
  unfold getHeader memcpy
  dsimp only
  constructor
  · rw [List.take_append_of_le_length (by omega)]
  · exact slice_append b _ 6 6 (by omega)

/-- Witness for C1: the header of the sample frame. -/
theorem setFrame_getHeader_witness :
    setFrame Endian.little EthernetFrame.new sampleFrame = some (Outcome.returned, sampleLoaded) ∧
      (getHeader sampleLoaded).destination = [0x01, 0x02, 0x03, 0x04, 0x05, 0x06] ∧
      (getHeader sampleLoaded).source = [0x0a, 0x0b, 0x0c, 0x0d, 0x0e, 0x0f] :=
  ⟨by decide!,
    setFrame_getHeader Endian.little EthernetFrame.new sampleLoaded sampleFrame
      (by decide) (by decide) (by decide!)⟩

/-- Claim C2: on a frame loaded by a `setFrame` of at least 4 bytes that
returned, `validateFCS` gives a result, and that result is true exactly when
the integer the host sees in the last 4 bytes of the data equals
`calculateCRC32` of the bytes before them. -/
theorem validateFCS_iff_crc (bo : Endian) (f g : EthernetFrame) (b : List Byte)
    (h4 : 4 ≤ b.length) (h : setFrame bo f b = some (Outcome.returned, g)) :
    ∃ v, validateFCS bo g = some v ∧
      (v = true ↔
        uintOfBytes bo (b.drop (b.length - 4)) = calculateCRC32 (b.take (b.length - 4))) := by
  have hmax := setFrame_length_le bo f g b _ h (by intro hc; cases hc)
  obtain ⟨ps, -, hg⟩ := (setFrame_eq_some bo f g b _ hmax).1 h
  subst hg
  have hlen : b.length ≤ (memcpy f.buffer b).length := by
    unfold memcpy; rw [List.length_append]; omega
  have hcov : ((memcpy f.buffer b).drop 0).take (b.length - 4) = b.take (b.length - 4) := by
    unfold memcpy
    rw [List.drop_zero, List.take_append_of_le_length (by omega)]
  have hfcs : ((memcpy f.buffer b).drop (b.length - 4)).take 4 = b.drop (b.length - 4) := by
    unfold memcpy
    rw [slice_append b _ (b.length - 4) 4 (by omega)]
    exact List.take_of_length_le (by rw [List.length_drop]; omega)
  refine ⟨decide (calculateCRC32 (b.take (b.length - 4)) =
    uintOfBytes bo (b.drop (b.length - 4))), ?_, ?_⟩
  · unfold validateFCS getFCS
    dsimp only
    rw [sizeSub_eq b.length 4 h4, readBytes_eq _ 0 _ (by omega),
      readBytes_eq _ (b.length - 4) 4 (by omega), hcov, hfcs]
    rfl
  · rw [decide_eq_true_iff]
    exact eq_comm

/-- Witness for C2: the sample frame ends in the CRC-32 of its first 24 bytes
and `validateFCS` accepts it. -/
theorem validateFCS_iff_crc_witness :
    setFrame Endian.little EthernetFrame.new sampleFrame = some (Outcome.returned, sampleLoaded) ∧
      validateFCS Endian.little sampleLoaded = some true ∧
      ∃ v, validateFCS Endian.little sampleLoaded = some v ∧
        (v = true ↔ uintOfBytes Endian.little (sampleFrame.drop (sampleFrame.length - 4)) =
          calculateCRC32 (sampleFrame.take (sampleFrame.length - 4))) :=
  ⟨by decide!, by decide!,
    validateFCS_iff_crc Endian.little EthernetFrame.new sampleLoaded sampleFrame
      (by decide) (by decide!)⟩

/-- Claim C3: `calculateCRC32` is CRC-32/ISO-HDLC as the specification words
it (initial value `0xFFFFFFFF`, each byte XORed into the low 8 bits followed by
8 shift-and-conditionally-XOR rounds, final complement), for every byte
sequence; its value is a 32-bit integer; the empty sequence gives `0` and the
9 ASCII bytes "123456789" give the check value `0xCBF43926`. -/
theorem calculateCRC32_is_crc32_iso_hdlc :
    (∀ data : List Byte, calculateCRC32 data = crc32IsoHdlc data ∧
        calculateCRC32 data < 2 ^ 32) ∧
      calculateCRC32 [] = 0x00000000 ∧
      calculateCRC32 checkInput = 0xCBF43926 := by
  refine ⟨fun data => ⟨?_, calculateCRC32_lt data⟩, by decide!, by decide!⟩
  unfold calculateCRC32 crc32IsoHdlc
  rw [notU32_eq_xor _ (crcByteLoop_lt data _ (by norm_num)), crcByteLoop_eq_foldl]

/-- Claim C4: `setFrame` throws `frameTooLarge`, leaving the frame as it was,
for every data longer than 1518 bytes; for data of at most 1518 bytes it ends
(on a frame whose buffer has its `MAX_FRAME_SIZE` bytes) and never with
`frameTooLarge`; and data of exactly 1518 bytes whose type tag at offset 12 is
not `0x8100` is accepted, as one generic payload of 1500 bytes. -/
theorem setFrame_frameTooLarge_iff (bo : Endian) (f : EthernetFrame) (b : List Byte) :
    (MAX_FRAME_SIZE < b.length →
        setFrame bo f b = some (Outcome.thrown Thrown.frameTooLarge, f)) ∧
      (b.length ≤ MAX_FRAME_SIZE →
        (∀ g, setFrame bo f b ≠ some (Outcome.thrown Thrown.frameTooLarge, g)) ∧
        (f.buffer.length = MAX_FRAME_SIZE → ∃ o g, setFrame bo f b = some (o, g))) ∧
      (b.length = MAX_FRAME_SIZE → uintOfBytes bo ((b.drop 12).take 2) ≠ 0x8100 →
        setFrame bo f b = some (Outcome.returned,
          { buffer := memcpy f.buffer b, length := 1518,
            payloads := [EthernetPayload.generic (uintOfBytes bo ((b.drop 12).take 2))
              ((b.drop 14).take 1500)] })) := by
  unfold MAX_FRAME_SIZE
  refine ⟨?_, ?_, ?_⟩
  · intro h
    unfold setFrame
    rw [if_pos (by unfold MAX_FRAME_SIZE; exact h)]
  · intro h
    constructor
    · intro g hg
      obtain ⟨ps, hp, -⟩ := (setFrame_eq_some bo f g b _ h).1 hg
      exact parseLoop_ne_frameTooLarge _ _ _ _ _ _ _ hp
    · intro hb
      obtain ⟨r, hr⟩ := parseLoop_total bo (memcpy f.buffer b) b.length
        (le_of_eq (memcpy_length _ _ hb h)) MAX_FRAME_SIZE 12 []
        (by unfold MAX_FRAME_SIZE; omega)
        (by rw [memcpy_length _ _ hb h]; unfold MAX_FRAME_SIZE; omega)
      exact ⟨r.1, _, (setFrame_eq_some bo f _ b _ h).2 ⟨r.2, hr, rfl⟩⟩
  · intro h ht
    refine (setFrame_eq_some_loaded bo f _ b _ (by omega) (by omega)).2 ⟨_, ?_, by rw [h]⟩
    have e : MAX_FRAME_SIZE = 1516 + 1 + 1 := rfl
    rw [e, parseLoop, loopBody_generic bo b b.length 12 [] (by omega) (le_refl _) (by omega) ht]
    dsimp only
    rw [parseLoop, loopBody_exit bo b b.length (b.length - 4) _ (by omega) (le_refl _)]
    rw [h]
    rfl

/-- Witness for C4: 1519 zero bytes are refused, 1518 zero bytes are accepted. -/
theorem setFrame_frameTooLarge_iff_witness :
    setFrame Endian.little EthernetFrame.new (List.replicate 1519 0) =
        some (Outcome.thrown Thrown.frameTooLarge, EthernetFrame.new) ∧
      (∃ o g, setFrame Endian.little EthernetFrame.new (List.replicate 3 0) = some (o, g)) ∧
      setFrame Endian.little EthernetFrame.new (List.replicate 1518 0) =
        some (Outcome.returned,
          { buffer := memcpy EthernetFrame.new.buffer (List.replicate 1518 0), length := 1518,
            payloads := [EthernetPayload.generic
              (uintOfBytes Endian.little (((List.replicate 1518 0).drop 12).take 2))
              (((List.replicate 1518 0).drop 14).take 1500)] }) :=
  ⟨(setFrame_frameTooLarge_iff Endian.little EthernetFrame.new (List.replicate 1519 0)).1
      (by decide!),
    ((setFrame_frameTooLarge_iff Endian.little EthernetFrame.new (List.replicate 3 0)).2.1
      (by decide!)).2 (by decide!),
    (setFrame_frameTooLarge_iff Endian.little EthernetFrame.new (List.replicate 1518 0)).2.2
      (by decide!) (by decide!)⟩

/-- Claim C5: when `setFrame` ends with `frameTooLarge`, the frame is exactly
the frame of before the call: buffer, length and payloads are unchanged. (It
does so only for data of more than 1518 bytes.) -/
theorem setFrame_frameTooLarge_unchanged (bo : Endian) (f g : EthernetFrame) (b : List Byte)
    (h : setFrame bo f b = some (Outcome.thrown Thrown.frameTooLarge, g)) :
    g = f ∧ g.buffer = f.buffer ∧ g.length = f.length ∧ g.payloads = f.payloads ∧
      MAX_FRAME_SIZE < b.length := by
  by_cases hmax : b.length ≤ 1518
  · obtain ⟨ps, hp, -⟩ := (setFrame_eq_some bo f g b _ hmax).1 h
    exact absurd hp (parseLoop_ne_frameTooLarge _ _ _ _ _ _ _)
  · unfold setFrame at h
    rw [if_pos (by unfold MAX_FRAME_SIZE; omega)] at h
    injection h with h
    injection h with h1 h2
    subst h2
    exact ⟨rfl, rfl, rfl, rfl, by unfold MAX_FRAME_SIZE; omega⟩

/-- Witness for C5: 1519 bytes offered to the loaded sample frame leave it as it is. -/
theorem setFrame_frameTooLarge_unchanged_witness :
    setFrame Endian.little sampleLoaded (List.replicate 1519 0xff) =
        some (Outcome.thrown Thrown.frameTooLarge, sampleLoaded) ∧
      MAX_FRAME_SIZE < (List.replicate 1519 (0xff : Byte)).length :=
  have h : setFrame Endian.little sampleLoaded (List.replicate 1519 0xff) =
      some (Outcome.thrown Thrown.frameTooLarge, sampleLoaded) := by decide!
  ⟨h, (setFrame_frameTooLarge_unchanged Endian.little sampleLoaded sampleLoaded
    (List.replicate 1519 0xff) h).2.2.2.2⟩

/-- Counterexample for C6: 8 bytes `0x11` load without error and without
payloads on a fresh frame and on a frame that had 16 bytes `0xff` loaded
before, but `getHeader` gives source `11 11 00 00 00 00` on the first and
`11 11 ff ff ff ff` on the second: bytes 8 to 11 of the header are those of
the earlier state. -/
theorem setFrame_short_header_keeps_prior_bytes :
    setFrame Endian.little EthernetFrame.new (List.replicate 16 0xff) =
        some (Outcome.returned, priorLoaded) ∧
      (setFrame Endian.little EthernetFrame.new shortData).map
          (fun r => (r.1, getHeader r.2, getPayloads r.2)) =
        some (Outcome.returned,
          { destination := [0x11, 0x11, 0x11, 0x11, 0x11, 0x11],
            source := [0x11, 0x11, 0x00, 0x00, 0x00, 0x00] }, []) ∧
      (setFrame Endian.little priorLoaded shortData).map
          (fun r => (r.1, getHeader r.2, getPayloads r.2)) =
        some (Outcome.returned,
          { destination := [0x11, 0x11, 0x11, 0x11, 0x11, 0x11],
            source := [0x11, 0x11, 0xff, 0xff, 0xff, 0xff] }, []) := by
  decide!

/-- Claim C6, amended: for data of at least 4 and at most 1518 bytes,
`setFrame` ends on any two frames in the same way, with the same length and the
same payloads, whatever state the frames were in; and for data of at least 12
bytes also with the same header, the first 12 bytes of the data. -/
theorem setFrame_replaces_prior_state (bo : Endian) (f1 f2 : EthernetFrame) (b : List Byte)
    (h4 : 4 ≤ b.length) (hmax : b.length ≤ MAX_FRAME_SIZE) :
    ∃ o g1 g2, setFrame bo f1 b = some (o, g1) ∧ setFrame bo f2 b = some (o, g2) ∧
      getPayloads g1 = getPayloads g2 ∧ g1.length = g2.length ∧
      (12 ≤ b.length → getHeader g1 = getHeader g2 ∧
        getHeader g1 = { destination := b.take 6, source := (b.drop 6).take 6 }) := by
  unfold MAX_FRAME_SIZE at hmax
  obtain ⟨r, hr⟩ := parseLoop_total bo b b.length hmax MAX_FRAME_SIZE 12 []
    (by unfold MAX_FRAME_SIZE; omega) (by unfold MAX_FRAME_SIZE; omega)
  have hhdr : ∀ (f : EthernetFrame), 12 ≤ b.length →
      getHeader { buffer := memcpy f.buffer b, length := b.length, payloads := r.2 } =
        { destination := b.take 6, source := (b.drop 6).take 6 } := by
    intro f h12
    unfold getHeader memcpy
    dsimp only
    rw [List.take_append_of_le_length (by omega), slice_append b _ 6 6 (by omega)]
  refine ⟨r.1, { buffer := memcpy f1.buffer b, length := b.length, payloads := r.2 },
    { buffer := memcpy f2.buffer b, length := b.length, payloads := r.2 },
    (setFrame_eq_some_loaded bo f1 _ b _ h4 hmax).2 ⟨r.2, hr, rfl⟩,
    (setFrame_eq_some_loaded bo f2 _ b _ h4 hmax).2 ⟨r.2, hr, rfl⟩, rfl, rfl, ?_⟩
  intro h12
  exact ⟨by rw [hhdr f1 h12, hhdr f2 h12], hhdr f1 h12⟩

/-- Witness for C6, amended: the sample frame loaded on a fresh frame and on a
frame loaded before. -/
theorem setFrame_replaces_prior_state_witness :
    ∃ o g1 g2, setFrame Endian.little EthernetFrame.new sampleFrame = some (o, g1) ∧
      setFrame Endian.little priorLoaded sampleFrame = some (o, g2) ∧
      getPayloads g1 = getPayloads g2 ∧ g1.length = g2.length ∧
      (12 ≤ sampleFrame.length → getHeader g1 = getHeader g2 ∧
        getHeader g1 =
          { destination := sampleFrame.take 6, source := (sampleFrame.drop 6).take 6 }) :=
  setFrame_replaces_prior_state Endian.little EthernetFrame.new priorLoaded sampleFrame
    (by decide) (by decide)

/-- Claim C7, the code at the failing inputs: a type tag `0x8100` with no byte
(18-byte frame, little-endian host) or with only 2 bytes (20-byte frame,
big-endian host) before the checksum region does not make `setFrame` throw; it
returns with a `Dot1qTag` whose 4 bytes include bytes of the checksum. -/
theorem setFrame_dot1q_reads_checksum :
    setFrame Endian.little EthernetFrame.new tagThenChecksum =
        some (Outcome.returned,
          { buffer := memcpy EthernetFrame.new.buffer tagThenChecksum, length := 18,
            payloads := [EthernetPayload.dot1qTag [0xaa, 0xbb, 0xcc, 0xdd]] }) ∧
      setFrame Endian.big EthernetFrame.new tagTwoBytesChecksum =
        some (Outcome.returned,
          { buffer := memcpy EthernetFrame.new.buffer tagTwoBytesChecksum, length := 20,
            payloads := [EthernetPayload.dot1qTag [0x00, 0x64, 0xaa, 0xbb]] }) := by
  decide!

/-- Claim C8: when the loop of `setFrame` comes to an offset at which exactly
1 byte is left before the checksum region, `setFrame` throws
`truncatedSegment`, with the payloads built so far; so it does for every data
of 17 bytes. -/
theorem setFrame_one_byte_left (bo : Endian) (f : EthernetFrame) (b : List Byte)
    (hmax : b.length ≤ MAX_FRAME_SIZE) :
    (∀ n o ps, loopHead bo b b.length n = some (o, ps) → o + 1 = b.length - 4 →
        setFrame bo f b = some (Outcome.thrown Thrown.truncatedSegment,
          { buffer := memcpy f.buffer b, length := b.length, payloads := ps })) ∧
      (b.length = 17 →
        setFrame bo f b = some (Outcome.thrown Thrown.truncatedSegment,
          { buffer := memcpy f.buffer b, length := b.length, payloads := [] })) := by
  unfold MAX_FRAME_SIZE at hmax
  have key : ∀ n o ps, loopHead bo b b.length n = some (o, ps) → o + 1 = b.length - 4 →
      setFrame bo f b = some (Outcome.thrown Thrown.truncatedSegment,
        { buffer := memcpy f.buffer b, length := b.length, payloads := ps }) := by
    intro n o ps hreach hone
    have hge := loopHead_offset_ge bo b b.length hmax n o ps hreach
    refine (setFrame_eq_some_loaded bo f _ b _ (by omega) hmax).2 ⟨ps, ?_, rfl⟩
    have e : MAX_FRAME_SIZE = (1517 - n) + 1 + n := by unfold MAX_FRAME_SIZE; omega
    rw [e, parseLoop_of_loopHead bo b b.length n o ps hreach, parseLoop,
      loopBody_one_byte bo b b.length o ps hmax (by omega)]
  exact ⟨key, fun h17 => key 0 12 [] rfl (by omega)⟩

/-- Witness for C8: after one complete tag the 23-byte frame has 1 byte left
at offset 18. -/
theorem setFrame_one_byte_left_witness :
    loopHead Endian.little tagThenOneByte tagThenOneByte.length 1 =
        some (18, [EthernetPayload.dot1qTag [0x00, 0x64, 0x08, 0x00]]) ∧
      setFrame Endian.little EthernetFrame.new tagThenOneByte =
        some (Outcome.thrown Thrown.truncatedSegment,
          { buffer := memcpy EthernetFrame.new.buffer tagThenOneByte,
            length := tagThenOneByte.length,
            payloads := [EthernetPayload.dot1qTag [0x00, 0x64, 0x08, 0x00]] }) :=
  ⟨by decide!,
    (setFrame_one_byte_left Endian.little EthernetFrame.new tagThenOneByte (by decide!)).1
      1 18 [EthernetPayload.dot1qTag [0x00, 0x64, 0x08, 0x00]] (by decide!) (by decide)⟩

/-- Claim C9: after a `setFrame` that returns, the payloads are zero or more
`Dot1qTag`s followed by at most one generic payload: no `Dot1qTag` comes after
a generic payload and there are never two generic payloads. -/
theorem setFrame_payload_order (bo : Endian) (f g : EthernetFrame) (b : List Byte)
    (h : setFrame bo f b = some (Outcome.returned, g)) :
    ∃ tags rest, getPayloads g = tags ++ rest ∧
      (∀ p ∈ tags, ∃ d, p = EthernetPayload.dot1qTag d) ∧
      (rest = [] ∨ ∃ t d, rest = [EthernetPayload.generic t d]) := by
  have hmax := setFrame_length_le bo f g b _ h (by intro hc; cases hc)
  obtain ⟨ps, hp, hg⟩ := (setFrame_eq_some bo f g b _ hmax).1 h
  subst hg
  exact parseLoop_order bo _ b.length (by unfold SIZE_MOD; omega) _ 12 [] ps
    (Or.inl (fun p hp => absurd hp (List.not_mem_nil p))) hp

/-- Witness for C9: the sample frame has one `Dot1qTag` and then one generic payload. -/
theorem setFrame_payload_order_witness :
    setFrame Endian.little EthernetFrame.new sampleFrame = some (Outcome.returned, sampleLoaded) ∧
      ∃ tags rest, getPayloads sampleLoaded = tags ++ rest ∧
        (∀ p ∈ tags, ∃ d, p = EthernetPayload.dot1qTag d) ∧
        (rest = [] ∨ ∃ t d, rest = [EthernetPayload.generic t d]) :=
  ⟨by decide!,
    setFrame_payload_order Endian.little EthernetFrame.new sampleLoaded sampleFrame
      (by decide!)⟩

/-- Claim C10: when the loop of `setFrame` comes to an offset `o` with at least
2 bytes before the checksum region and reads there a type tag other than
`0x8100`, `setFrame` returns, and the payloads are those built so far followed
by one last generic payload with that type and with all the bytes from `o + 2`
up to the checksum region as data. -/
theorem setFrame_generic_last (bo : Endian) (f : EthernetFrame) (b : List Byte)
    (n o : Nat) (ps : List EthernetPayload) (hmax : b.length ≤ MAX_FRAME_SIZE)
    (hreach : loopHead bo b b.length n = some (o, ps)) (hroom : o + 2 ≤ b.length - 4)
    (ht : uintOfBytes bo ((b.drop o).take 2) ≠ 0x8100) :
    setFrame bo f b = some (Outcome.returned,
      { buffer := memcpy f.buffer b, length := b.length,
        payloads := ps ++ [EthernetPayload.generic (uintOfBytes bo ((b.drop o).take 2))
          ((b.drop (o + 2)).take (b.length - 4 - (o + 2)))] }) := by
  unfold MAX_FRAME_SIZE at hmax
  have hge := loopHead_offset_ge bo b b.length hmax n o ps hreach
  refine (setFrame_eq_some_loaded bo f _ b _ (by omega) hmax).2 ⟨_, ?_, rfl⟩
  have e : MAX_FRAME_SIZE = (1516 - n) + 1 + 1 + n := by unfold MAX_FRAME_SIZE; omega
  have e2 : b.length - (o + 2) - 4 = b.length - 4 - (o + 2) := by omega
  rw [e, parseLoop_of_loopHead bo b b.length n o ps hreach, parseLoop,
    loopBody_generic bo b b.length o ps hmax (le_refl _) (by omega) ht]
  dsimp only
  rw [parseLoop, loopBody_exit bo b b.length (b.length - 4) _ (by omega) (le_refl _), e2]

/-- Witness for C10: in the sample frame the loop reads the type tag `0x0800`
at offset 18, after one `Dot1qTag`. -/
theorem setFrame_generic_last_witness :
    loopHead Endian.little sampleFrame sampleFrame.length 1 =
        some (18, [EthernetPayload.dot1qTag [0x00, 0x64, 0x08, 0x00]]) ∧
      setFrame Endian.little EthernetFrame.new sampleFrame = some (Outcome.returned,
        { buffer := memcpy EthernetFrame.new.buffer sampleFrame, length := sampleFrame.length,
          payloads := [EthernetPayload.dot1qTag [0x00, 0x64, 0x08, 0x00]] ++
            [EthernetPayload.generic (uintOfBytes Endian.little ((sampleFrame.drop 18).take 2))
              ((sampleFrame.drop (18 + 2)).take (sampleFrame.length - 4 - (18 + 2)))] }) :=
  ⟨by decide!,
    setFrame_generic_last Endian.little EthernetFrame.new sampleFrame 1 18
      [EthernetPayload.dot1qTag [0x00, 0x64, 0x08, 0x00]] (by decide!) (by decide!)
      (by decide) (by decide!)⟩

/-! ## Lemmas on reading and writing integers -/

theorem uintOfBytes_little_eq (bs : List Byte) :
    uintOfBytes Endian.little bs = bs.foldr (fun b acc => b.val + 256 * acc) 0 := rfl

theorem uintOfBytes_big_eq (bs : List Byte) :
    uintOfBytes Endian.big bs = bs.foldl (fun acc b => 256 * acc + b.val) 0 := rfl

theorem uintOfBytes_big (bs : List Byte) :
    uintOfBytes Endian.big bs = uintOfBytes Endian.little bs.reverse := by
  rw [uintOfBytes_little_eq, uintOfBytes_big_eq, List.foldr_reverse]
  congr 1
  funext acc b
  omega

theorem littleBytes_length (n v : Nat) : (littleBytes n v).length = n := by
  induction n generalizing v with
  | zero => rfl
  | succ n ih => rw [littleBytes, List.length_cons, ih]

theorem bytesOfUint_length (bo : Endian) (n v : Nat) : (bytesOfUint bo n v).length = n := by
  cases bo
  · exact littleBytes_length n v
  · unfold bytesOfUint
    rw [List.length_reverse, littleBytes_length]

theorem uintOfBytes_littleBytes (n v : Nat) :
    uintOfBytes Endian.little (littleBytes n v) = v % 256 ^ n := by
  induction n generalizing v with
  | zero =>
    simp [littleBytes, uintOfBytes, Nat.mod_one]
  | succ n ih =>
    have h := ih (v / 256)
    rw [uintOfBytes_little_eq] at h ⊢
    rw [littleBytes, List.foldr_cons, h, Nat.pow_succ, Nat.mul_comm (256 ^ n) 256,
      Nat.mod_mul]

/-- Reading back what was written gives the value, reduced to the width written. -/
theorem uintOfBytes_bytesOfUint (bo : Endian) (n v : Nat) :
    uintOfBytes bo (bytesOfUint bo n v) = v % 256 ^ n := by
  cases bo
  · exact uintOfBytes_littleBytes n v
  · rw [uintOfBytes_big]
    unfold bytesOfUint
    rw [List.reverse_reverse]
    exact uintOfBytes_littleBytes n v

theorem uintOfBytes_little_lt (bs : List Byte) :
    uintOfBytes Endian.little bs < 256 ^ bs.length := by
  induction bs with
  | nil => simp [uintOfBytes]
  | cons b rest ih =>
    rw [uintOfBytes_little_eq] at ih ⊢
    rw [List.foldr_cons, List.length_cons, Nat.pow_succ]
    have := b.isLt
    omega

theorem uintOfBytes_lt (bo : Endian) (bs : List Byte) : uintOfBytes bo bs < 256 ^ bs.length := by
  cases bo
  · exact uintOfBytes_little_lt bs
  · rw [uintOfBytes_big, ← List.length_reverse bs]
    exact uintOfBytes_little_lt _

theorem uintOfBytes_little_injective (xs ys : List Byte) (hlen : xs.length = ys.length)
    (h : uintOfBytes Endian.little xs = uintOfBytes Endian.little ys) : xs = ys := by
  induction xs generalizing ys with
  | nil =>
    cases ys with
    | nil => rfl
    | cons y ys => simp at hlen
  | cons x xs ih =>
    cases ys with
    | nil => simp at hlen
    | cons y ys =>
      rw [uintOfBytes_little_eq, uintOfBytes_little_eq, List.foldr_cons, List.foldr_cons] at h
      have hx := x.isLt
      have hy := y.isLt
      have h1 : x.val = y.val := by omega
      have h2 : List.foldr (fun (b : Byte) acc => b.val + 256 * acc) 0 xs =
          List.foldr (fun (b : Byte) acc => b.val + 256 * acc) 0 ys := by omega
      rw [Fin.ext h1, ih ys (by simpa using hlen) (by
        rw [uintOfBytes_little_eq, uintOfBytes_little_eq]; exact h2)]

/-- Two runs of bytes of the same length that a host reads as the same integer
are the same bytes. -/
theorem uintOfBytes_injective (bo : Endian) (xs ys : List Byte) (hlen : xs.length = ys.length)
    (h : uintOfBytes bo xs = uintOfBytes bo ys) : xs = ys := by
  cases bo
  · exact uintOfBytes_little_injective xs ys hlen h
  · rw [uintOfBytes_big, uintOfBytes_big] at h
    exact List.reverse_injective
      (uintOfBytes_little_injective _ _ (by rw [List.length_reverse, List.length_reverse, hlen]) h)
/-! ## Lemmas on the bit fields of the TCI -/

theorem and_split (n a m : Nat) :
    a &&& m = 2 ^ n * ((a / 2 ^ n) &&& (m / 2 ^ n)) + ((a % 2 ^ n) &&& (m % 2 ^ n)) := by
  have hlow : (a % 2 ^ n) &&& (m % 2 ^ n) < 2 ^ n :=
    Nat.and_lt_two_pow _ (Nat.mod_lt _ (Nat.two_pow_pos n))
  apply Nat.eq_of_testBit_eq
  intro i
  rw [Nat.testBit_mul_pow_two_add _ hlow, ← Nat.shiftRight_eq_div_pow,
    ← Nat.shiftRight_eq_div_pow]
  by_cases hi : i < n
  · simp [hi, Nat.testBit_mod_two_pow]
  · have : n + (i - n) = i := by omega
    simp [hi, Nat.testBit_shiftRight, this]

theorem or_split (n a m : Nat) :
    a ||| m = 2 ^ n * ((a / 2 ^ n) ||| (m / 2 ^ n)) + ((a % 2 ^ n) ||| (m % 2 ^ n)) := by
  have hlow : (a % 2 ^ n) ||| (m % 2 ^ n) < 2 ^ n :=
    Nat.or_lt_two_pow (Nat.mod_lt _ (Nat.two_pow_pos n)) (Nat.mod_lt _ (Nat.two_pow_pos n))
  apply Nat.eq_of_testBit_eq
  intro i
  rw [Nat.testBit_mul_pow_two_add _ hlow, ← Nat.shiftRight_eq_div_pow,
    ← Nat.shiftRight_eq_div_pow]
  by_cases hi : i < n
  · simp [hi, Nat.testBit_mod_two_pow]
  · have : n + (i - n) = i := by omega
    simp [hi, Nat.testBit_shiftRight, this]

theorem and_low_mask (k x : Nat) (m : Nat) (hm : m + 1 = 2 ^ k) : x &&& m = x % 2 ^ k := by
  have : m = 2 ^ k - 1 := by omega
  rw [this, Nat.and_pow_two_sub_one_eq_mod]

/-- The field read by `getPriorityCodePoint`: bits 15 to 13. -/
theorem tci_pcp_bits (t : Nat) : (t >>> 13) &&& 0x07 = t / 8192 % 8 := by
  rw [Nat.shiftRight_eq_div_pow, and_low_mask 3 _ 7 (by norm_num)]
  norm_num

/-- The field read by `getDropEligibleIndicator`: bit 12. -/
theorem tci_dei_bit (t : Nat) : (t >>> 12) &&& 0x01 = t / 4096 % 2 := by
  rw [Nat.shiftRight_eq_div_pow, and_low_mask 1 _ 1 (by norm_num)]
  norm_num

/-- The field read by `getVLANIdentifier`: bits 11 to 0. -/
theorem tci_vid_bits (t : Nat) : t &&& 0x0FFF = t % 4096 := by
  rw [and_low_mask 12 _ 0x0FFF (by norm_num)]
  norm_num

/-- The value that `setPriorityCodePoint` stores. -/
theorem tci_set_pcp (t p : Nat) :
    ((t &&& 0x1FFF) ||| (p <<< 13)) % 65536 = t % 8192 + (p % 8) * 8192 := by
  have h1 : t &&& 0x1FFF = t % 8192 := by
    rw [and_low_mask 13 _ 0x1FFF (by norm_num)]; norm_num
  have h2 : p <<< 13 = 2 ^ 13 * p := by rw [Nat.shiftLeft_eq, Nat.mul_comm]
  have h3 : t % 8192 < 2 ^ 13 := by norm_num; omega
  rw [h1, h2, Nat.or_comm, ← Nat.mul_add_lt_is_or h3]
  norm_num
  omega

/-- The value that `setVLANIdentifier` stores. -/
theorem tci_set_vid (t v : Nat) (ht : t < 65536) :
    ((t &&& 0xF000) ||| (v &&& 0x0FFF)) % 65536 = t / 4096 * 4096 + v % 4096 := by
  have h1 : t &&& 0xF000 = 2 ^ 12 * (t / 4096) := by
    rw [and_split 12 t 0xF000]
    norm_num
    rw [and_low_mask 4 _ 15 (by norm_num)]
    norm_num
    omega
  have h3 : v % 4096 < 2 ^ 12 := by norm_num; omega
  rw [h1, tci_vid_bits, ← Nat.mul_add_lt_is_or h3]
  norm_num
  omega

/-- The value that `setDropEligibleIndicator` stores. -/
theorem tci_set_dei (t : Nat) (d : Bool) (ht : t < 65536) :
    ((t &&& 0xEFFF) ||| ((if d then 1 else 0) <<< 12)) % 65536 =
      t / 8192 * 8192 + (if d then 4096 else 0) + t % 4096 := by
  have h1 : t &&& 0xEFFF = 8192 * (t / 8192) + t % 4096 := by
    rw [and_split 13 t 0xEFFF]
    norm_num
    rw [and_low_mask 3 _ 7 (by norm_num), and_low_mask 12 _ 4095 (by norm_num)]
    norm_num
    omega
  have h2 : (8192 * (t / 8192) + t % 4096) ||| ((if d then 1 else 0) <<< 12) =
      8192 * (t / 8192) + (if d then 4096 else 0) + t % 4096 := by
    rw [or_split 12]
    have e1 : (8192 * (t / 8192) + t % 4096) / 2 ^ 12 = 2 ^ 1 * (t / 8192) := by
      norm_num; omega
    have e2 : (8192 * (t / 8192) + t % 4096) % 2 ^ 12 = t % 4096 := by
      norm_num; omega
    cases d
    · simp only [Bool.false_eq_true, if_false, Nat.zero_shiftLeft, Nat.zero_div, Nat.zero_mod,
        Nat.or_zero, e1, e2]
      norm_num
      omega
    · have e3 : (1 <<< 12) / 2 ^ 12 = 1 := by decide
      have e4 : (1 <<< 12) % 2 ^ 12 = 0 := by decide
      simp only [if_true, e1, e2, e3, e4, Nat.or_zero]
      rw [← Nat.mul_add_lt_is_or (by norm_num : 1 < 2 ^ 1)]
      norm_num
      omega
  rw [h1, h2]
  split <;> omega
/-! ## Lemmas on the `Dot1qTag` accessors -/

/-- The TCI of a tag of 4 bytes is the integer in its bytes 2 and 3. -/
theorem getTagControlInformation_eq (bo : Endian) (data : List Byte) (h : data.length = 4) :
    Dot1qTag.getTagControlInformation bo data = some (uintOfBytes bo ((data.drop 2).take 2)) ∧
      uintOfBytes bo ((data.drop 2).take 2) < 65536 := by
  constructor
  · unfold Dot1qTag.getTagControlInformation
    rw [readBytes_eq data 2 2 (by omega)]
    rfl
  · have hl : ((data.drop 2).take 2).length = 2 := by
      rw [List.length_take, List.length_drop]; omega
    have := uintOfBytes_lt bo ((data.drop 2).take 2)
    rw [hl] at this
    norm_num at this
    exact this

/-- What the three field readers give on a tag whose TCI is `t`. -/
theorem getters_of_tci (bo : Endian) (data : List Byte) (t : Nat)
    (h : Dot1qTag.getTagControlInformation bo data = some t) (ht : t < 65536) :
    Dot1qTag.getPriorityCodePoint bo data = some (t / 8192) ∧
      Dot1qTag.getDropEligibleIndicator bo data = some (decide (t / 4096 % 2 = 1)) ∧
      Dot1qTag.getVLANIdentifier bo data = some (t % 4096) := by
  unfold Dot1qTag.getPriorityCodePoint Dot1qTag.getDropEligibleIndicator
    Dot1qTag.getVLANIdentifier
  rw [h]
  simp only [Option.map_some']
  rw [tci_pcp_bits, tci_dei_bit, tci_vid_bits]
  refine ⟨?_, ?_, ?_⟩
  · congr 1; omega
  · congr 1
    rcases Nat.mod_two_eq_zero_or_one (t / 4096) with h2 | h2 <;> simp [h2]
  · congr 1; omega

/-- The method `setTagControlInformation` on a tag of 4 bytes stores the value,
reduced to 16 bits, in bytes 2 and 3 and leaves bytes 0 and 1 as they are. -/
theorem setTagControlInformation_spec (bo : Endian) (data : List Byte) (v : Nat)
    (h : data.length = 4) :
    ∃ data2, Dot1qTag.setTagControlInformation bo data v = some data2 ∧ data2.length = 4 ∧
      data2.take 2 = data.take 2 ∧
      Dot1qTag.getTagControlInformation bo data2 = some (v % 65536) := by
  have hb : (bytesOfUint bo 2 (v % 65536)).length = 2 := bytesOfUint_length bo 2 _
  have htake : (data.take 2).length = 2 := by rw [List.length_take]; omega
  refine ⟨data.take 2 ++ bytesOfUint bo 2 (v % 65536) ++ data.drop (2 + 2), ?_, ?_, ?_, ?_⟩
  · unfold Dot1qTag.setTagControlInformation writeBytes
    rw [hb, if_pos (by omega)]
  · rw [List.length_append, List.length_append, hb, htake, List.length_drop]; omega
  · rw [List.append_assoc, List.take_left' htake]
  · unfold Dot1qTag.getTagControlInformation
    have hlen : (data.take 2 ++ bytesOfUint bo 2 (v % 65536) ++ data.drop (2 + 2)).length = 4 := by
      rw [List.length_append, List.length_append, hb, htake, List.length_drop]; omega
    rw [readBytes_eq _ 2 2 (by omega), List.append_assoc, List.drop_left' htake,
      List.take_left' hb]
    simp only [Option.map_some']
    rw [uintOfBytes_bytesOfUint]
    congr 1
    norm_num

/-- Each mutator call on a tag of 4 bytes with TCI `t` returns, and leaves a tag
of 4 bytes with the same bytes 0 and 1 and with TCI `tciAfter t w`. -/
theorem write_spec (bo : Endian) (data : List Byte) (t : Nat) (w : TciWrite)
    (h : data.length = 4) (ht : Dot1qTag.getTagControlInformation bo data = some t)
    (hlt : t < 65536) :
    ∃ data2, Dot1qTag.write bo data w = some data2 ∧ data2.length = 4 ∧
      data2.take 2 = data.take 2 ∧
      Dot1qTag.getTagControlInformation bo data2 = some (tciAfter t w) ∧
      tciAfter t w < 65536 := by
  cases w with
  | priorityCodePoint pcp =>
    obtain ⟨d2, h1, h2, h3, h4⟩ := setTagControlInformation_spec bo data
      ((t &&& 0x1FFF) ||| ((pcp % 256) <<< 13)) h
    refine ⟨d2, ?_, h2, h3, ?_, ?_⟩
    · unfold Dot1qTag.write Dot1qTag.setPriorityCodePoint
      rw [ht]
      exact h1
    · have e : pcp % 256 % 8 = pcp % 8 := by omega
      rw [h4, tci_set_pcp, e]
      rfl
    · simp only [tciAfter]
      omega
  | dropEligibleIndicator dei =>
    obtain ⟨d2, h1, h2, h3, h4⟩ := setTagControlInformation_spec bo data
      ((t &&& 0xEFFF) ||| ((if dei then 1 else 0) <<< 12)) h
    refine ⟨d2, ?_, h2, h3, ?_, ?_⟩
    · unfold Dot1qTag.write Dot1qTag.setDropEligibleIndicator
      rw [ht]
      exact h1
    · rw [h4, tci_set_dei t dei hlt]
      rfl
    · simp only [tciAfter]
      split <;> omega
  | vlanIdentifier vid =>
    obtain ⟨d2, h1, h2, h3, h4⟩ := setTagControlInformation_spec bo data
      ((t &&& 0xF000) ||| ((vid % 65536) &&& 0x0FFF)) h
    refine ⟨d2, ?_, h2, h3, ?_, ?_⟩
    · unfold Dot1qTag.write Dot1qTag.setVLANIdentifier
      rw [ht]
      exact h1
    · have e : vid % 65536 % 4096 = vid % 4096 := by omega
      rw [h4, tci_set_vid t _ hlt, e]
      rfl
    · simp only [tciAfter]
      omega

/-- A sequence of mutator calls on a tag of 4 bytes returns, with the TCI folded
through `tciAfter`. -/
theorem writeAll_spec (bo : Endian) (ws : List TciWrite) (data : List Byte) (t : Nat)
    (h : data.length = 4) (ht : Dot1qTag.getTagControlInformation bo data = some t)
    (hlt : t < 65536) :
    ∃ data2, Dot1qTag.writeAll bo data ws = some data2 ∧ data2.length = 4 ∧
      data2.take 2 = data.take 2 ∧
      Dot1qTag.getTagControlInformation bo data2 = some (ws.foldl tciAfter t) ∧
      ws.foldl tciAfter t < 65536 := by
  induction ws generalizing data t with
  | nil => exact ⟨data, rfl, h, rfl, ht, hlt⟩
  | cons w ws ih =>
    obtain ⟨d1, h1, h2, h3, h4, h5⟩ := write_spec bo data t w h ht hlt
    obtain ⟨d2, k1, k2, k3, k4, k5⟩ := ih d1 (tciAfter t w) h2 h4 h5
    refine ⟨d2, ?_, k2, by rw [k3, h3], k4, k5⟩
    rw [Dot1qTag.writeAll, h1]
    exact k1
/-! ## Lemmas on the checksum of a loaded frame -/

theorem memcpy_checksum_bytes (buffer b : List Byte) (h4 : 4 ≤ b.length) :
    ((memcpy buffer b).drop (b.length - 4)).take 4 = b.drop (b.length - 4) := by
  unfold memcpy
  rw [slice_append b _ (b.length - 4) 4 (by omega)]
  exact List.take_of_length_le (by rw [List.length_drop]; omega)

/-- On a frame that holds the data `b` of at least 4 bytes, `validateFCS`
compares the CRC-32 of all but the last 4 bytes of `b` with the integer in the
last 4 bytes. -/
theorem validateFCS_memcpy (bo : Endian) (buffer b : List Byte) (ps : List EthernetPayload)
    (h4 : 4 ≤ b.length) :
    validateFCS bo { buffer := memcpy buffer b, length := b.length, payloads := ps } =
      some (decide (calculateCRC32 (b.take (b.length - 4)) =
        uintOfBytes bo (b.drop (b.length - 4)))) := by
  have hlen : b.length ≤ (memcpy buffer b).length := by
    unfold memcpy; rw [List.length_append]; omega
  have hcov : ((memcpy buffer b).drop 0).take (b.length - 4) = b.take (b.length - 4) := by
    unfold memcpy
    rw [List.drop_zero, List.take_append_of_le_length (by omega)]
  unfold validateFCS getFCS
  dsimp only
  rw [sizeSub_eq b.length 4 h4, readBytes_eq _ 0 _ (by omega),
    readBytes_eq _ (b.length - 4) 4 (by omega), hcov, memcpy_checksum_bytes buffer b h4]
  rfl
/-! ## Lemmas on data that differ in the last 4 bytes only -/

theorem slice_of_take_eq (b c : List Byte) (m off n : Nat) (h : c.take m = b.take m)
    (hle : off + n ≤ m) : (c.drop off).take n = (b.drop off).take n := by
  have key : ∀ l : List Byte, (l.drop off).take n = ((l.take m).drop off).take n := by
    intro l
    rw [List.drop_take, List.take_take, Nat.min_eq_left (by omega)]
  rw [key c, key b, h]

theorem wireLength_append (ps : List EthernetPayload) (p : EthernetPayload) :
    wireLength (ps ++ [p]) = wireLength ps + (2 + p.getData.length) := by
  induction ps with
  | nil => simp [wireLength]
  | cons q qs ih =>
    rw [List.cons_append, wireLength, wireLength, ih]
    omega

/-- When the payloads of a frame fill exactly the bytes between the header and
the checksum region, the loop has read no byte of the last 4: data that agree
with the frame on all but the last 4 bytes parse to the same payloads. -/
theorem parseLoop_of_take_eq (bo : Endian) (b c : List Byte) (h4 : 4 ≤ b.length)
    (hmax : b.length ≤ 1518) (hlen : c.length = b.length)
    (htake : c.take (b.length - 4) = b.take (b.length - 4))
    (fuel off : Nat) (acc ps : List EthernetPayload) (hoff : 12 + wireLength acc = off)
    (hrun : parseLoop bo b b.length fuel off acc = some (Outcome.returned, ps))
    (htile : 12 + wireLength ps + 4 = b.length) :
    parseLoop bo c b.length fuel off acc = some (Outcome.returned, ps) := by
  induction fuel generalizing off acc with
  | zero => rw [parseLoop] at hrun; cases hrun
  | succ n ih =>
    rw [parseLoop] at hrun ⊢
    by_cases h1 : b.length - 4 ≤ off
    · rw [loopBody_exit _ _ _ _ _ h4 h1] at hrun ⊢
      exact hrun
    · by_cases h2 : off + 5 = b.length
      · rw [loopBody_one_byte _ _ _ _ _ hmax h2] at hrun
        cases hrun
      · have h3 : off + 6 ≤ b.length := by omega
        have htag : (c.drop off).take 2 = (b.drop off).take 2 :=
          slice_of_take_eq b c _ off 2 htake (by omega)
        by_cases h8 : uintOfBytes bo ((b.drop off).take 2) = 0x8100
        · rw [loopBody_dot1q _ _ _ _ _ hmax (le_refl _) h3 h8] at hrun
          dsimp only at hrun
          by_cases h5 : off + 6 ≤ b.length - 4
          · rw [loopBody_dot1q bo c b.length off acc hmax (by omega) h3 (by rw [htag]; exact h8),
              slice_of_take_eq b c _ (off + 2) 4 htake (by omega)]
            dsimp only
            refine ih (off + 6) _ ?_ hrun
            rw [wireLength_append]
            have hd : ((b.drop (off + 2)).take 4).length = 4 := by
              rw [List.length_take, List.length_drop]; omega
            simp only [EthernetPayload.getData, hd]
            omega
          · exfalso
            cases n with
            | zero => rw [parseLoop] at hrun; cases hrun
            | succ k =>
              rw [parseLoop, loopBody_exit _ _ _ _ _ h4 (by omega)] at hrun
              injection hrun with hrun
              injection hrun with hr1 hr2
              subst hr2
              rw [wireLength_append] at htile
              have hd : ((b.drop (off + 2)).take 4).length = 4 := by
                rw [List.length_take, List.length_drop]; omega
              simp only [EthernetPayload.getData, hd] at htile
              omega
        · rw [loopBody_generic _ _ _ _ _ hmax (le_refl _) h3 h8] at hrun
          dsimp only at hrun
          rw [loopBody_generic bo c b.length off acc hmax (by omega) h3 (by rw [htag]; exact h8),
            htag, slice_of_take_eq b c _ (off + 2) _ htake (by omega)]
          dsimp only
          refine ih (b.length - 4) _ ?_ hrun
          rw [wireLength_append]
          have hd : ((b.drop (off + 2)).take (b.length - (off + 2) - 4)).length =
              b.length - (off + 2) - 4 := by
            rw [List.length_take, List.length_drop]; omega
          simp only [EthernetPayload.getData, hd]
          omega
theorem flipByteBit_ne (x : Byte) (k : Nat) : flipByteBit x k ≠ x := by
  have hall : ∀ (y : Byte) (j : Fin 8), flipByteBit y j.val ≠ y := by decide!
  have hmod : flipByteBit x k = flipByteBit x (k % 8) := by
    unfold flipByteBit
    simp only [Nat.mod_mod]
  rw [hmod]
  exact hall x ⟨k % 8, Nat.mod_lt k (by decide)⟩

theorem flipChecksumBit_length (b : List Byte) (k : Nat) :
    (flipChecksumBit b k).length = b.length := by
  unfold flipChecksumBit
  rw [List.length_set]

/-- A flip in the last 4 bytes leaves the bytes before them as they are. -/
theorem flipChecksumBit_take (b : List Byte) (k : Nat) :
    (flipChecksumBit b k).take (b.length - 4) = b.take (b.length - 4) := by
  unfold flipChecksumBit
  by_cases hi : b.length - 4 + k / 8 < b.length
  · rw [List.set_eq_take_append_cons_drop, if_pos hi,
      List.take_append_of_le_length (by rw [List.length_take]; omega), List.take_take,
      Nat.min_eq_left (by omega)]
  · rw [List.set_eq_of_length_le (by omega)]

/-- A flip of one of the 32 bits of the last 4 bytes changes these bytes. -/
theorem flipChecksumBit_drop_ne (b : List Byte) (k : Nat) (h4 : 4 ≤ b.length) (hk : k < 32) :
    (flipChecksumBit b k).drop (b.length - 4) ≠ b.drop (b.length - 4) := by
  intro hdrop
  have hi : b.length - 4 + k / 8 < b.length := by omega
  have hall : flipChecksumBit b k = b := by
    rw [← List.take_append_drop (b.length - 4) (flipChecksumBit b k), hdrop,
      flipChecksumBit_take, List.take_append_drop]
  have hget : (flipChecksumBit b k)[b.length - 4 + k / 8]? = b[b.length - 4 + k / 8]? := by
    rw [hall]
  unfold flipChecksumBit at hget
  rw [List.getElem?_set_self hi, List.getD_eq_getElem?_getD, List.getElem?_eq_getElem hi] at hget
  simp only [Option.getD_some, Option.some.injEq] at hget
  exact flipByteBit_ne _ _ hget
/-! ## What holds of the loop outside the two defects -/

theorem loopHead_payloads_length (bo : Endian) (buf : List Byte) (len : Nat)
    (hlen : len < SIZE_MOD) (n off : Nat) (ps : List EthernetPayload)
    (h : loopHead bo buf len n = some (off, ps)) : ps.length = n := by
  induction n generalizing off ps with
  | zero =>
    rw [loopHead] at h
    injection h with h
    injection h with h h2
    subst h2
    rfl
  | succ n ih =>
    rw [loopHead] at h
    split at h
    · contradiction
    · rename_i off1 ps1 hprev
      split at h
      · rename_i off2 ps2 hnext
        injection h with h
        injection h with h h2
        subst h2
        have hl := ih off1 ps1 hprev
        rcases (loopBody_next_cases bo buf len off1 off2 ps1 ps2 hlen hnext).2 with
          ⟨d, hd⟩ | ⟨t, d, hd, -⟩ <;>
          rw [hd, List.length_append, hl] <;> rfl
      · contradiction

/-- For data of at least 4 and at most 1518 bytes the loop of `parseFrame`
ends, the `n`-th pass starts at an offset of at least `12 + 2 * n` with `n`
payloads built, and a pass that enters the body is one of the first
`(length - 16) / 2` rounded up. -/
theorem loop_pass_bound (bo : Endian) (b : List Byte) (h4 : 4 ≤ b.length)
    (hmax : b.length ≤ 1518) :
    (∃ r, parseLoop bo b b.length MAX_FRAME_SIZE 12 [] = some r) ∧
      ∀ n off ps, loopHead bo b b.length n = some (off, ps) →
        12 + 2 * n ≤ off ∧ ps.length = n ∧
        (off < b.length - 4 → n + 1 ≤ (b.length - 16 + 1) / 2) := by
  refine ⟨parseLoop_total bo b b.length hmax MAX_FRAME_SIZE 12 []
    (by unfold MAX_FRAME_SIZE; omega) (by unfold MAX_FRAME_SIZE; omega), ?_⟩
  intro n off ps h
  have hge := loopHead_offset_ge bo b b.length hmax n off ps h
  exact ⟨hge, loopHead_payloads_length bo b b.length (by unfold SIZE_MOD; omega) n off ps h,
    fun hlt => by omega⟩

theorem segmentBytes_append (bo : Endian) (ps : List EthernetPayload) (p : EthernetPayload) :
    segmentBytes bo (ps ++ [p]) = segmentBytes bo ps ++ (bytesOfUint bo 2 p.getType ++ p.getData) := by
  induction ps with
  | nil => simp [segmentBytes]
  | cons q qs ih =>
    rw [List.cons_append, segmentBytes, segmentBytes, ih]
    simp only [List.append_assoc]

/-- Two bytes are the bytes that the host stores for the integer it reads in them. -/
theorem bytesOfUint_uintOfBytes (bo : Endian) (tb : List Byte) (h : tb.length = 2) :
    bytesOfUint bo 2 (uintOfBytes bo tb) = tb := by
  apply uintOfBytes_injective bo
  · rw [bytesOfUint_length, h]
  · rw [uintOfBytes_bytesOfUint]
    have := uintOfBytes_lt bo tb
    rw [h] at this
    exact Nat.mod_eq_of_lt this

theorem take_add_slices (b : List Byte) (off n : Nat) :
    b.take (off + 2 + n) = b.take off ++ ((b.drop off).take 2 ++ (b.drop (off + 2)).take n) := by
  rw [List.take_add, List.take_add, List.append_assoc]

/-- The bytes that the loop has passed are the header bytes followed by the
payloads written out. -/
theorem parseLoop_segmentBytes (bo : Endian) (b : List Byte) (h4 : 4 ≤ b.length)
    (hmax : b.length ≤ 1518) (fuel off : Nat) (acc ps : List EthernetPayload)
    (hoff : 12 + wireLength acc = off)
    (hacc : b.take off = b.take 12 ++ segmentBytes bo acc)
    (hrun : parseLoop bo b b.length fuel off acc = some (Outcome.returned, ps)) :
    b.take (12 + wireLength ps) = b.take 12 ++ segmentBytes bo ps := by
  induction fuel generalizing off acc with
  | zero => rw [parseLoop] at hrun; cases hrun
  | succ n ih =>
    rw [parseLoop] at hrun
    by_cases h1 : b.length - 4 ≤ off
    · rw [loopBody_exit _ _ _ _ _ h4 h1] at hrun
      injection hrun with hrun
      injection hrun with hr1 hr2
      subst hr2
      rw [hoff]
      exact hacc
    · by_cases h2 : off + 5 = b.length
      · rw [loopBody_one_byte _ _ _ _ _ hmax h2] at hrun
        cases hrun
      · have h3 : off + 6 ≤ b.length := by omega
        have htl : ((b.drop off).take 2).length = 2 := by
          rw [List.length_take, List.length_drop]; omega
        by_cases h8 : uintOfBytes bo ((b.drop off).take 2) = 0x8100
        · rw [loopBody_dot1q _ _ _ _ _ hmax (le_refl _) h3 h8] at hrun
          dsimp only at hrun
          have hd : ((b.drop (off + 2)).take 4).length = 4 := by
            rw [List.length_take, List.length_drop]; omega
          refine ih (off + 6) _ ?_ ?_ hrun
          · rw [wireLength_append]
            simp only [EthernetPayload.getData, hd]
            omega
          · rw [segmentBytes_append, take_add_slices b off 4, hacc]
            simp only [EthernetPayload.getType, EthernetPayload.getData]
            rw [← h8, bytesOfUint_uintOfBytes bo _ htl, List.append_assoc]
        · rw [loopBody_generic _ _ _ _ _ hmax (le_refl _) h3 h8] at hrun
          dsimp only at hrun
          have hd : ((b.drop (off + 2)).take (b.length - (off + 2) - 4)).length =
              b.length - (off + 2) - 4 := by
            rw [List.length_take, List.length_drop]; omega
          refine ih (b.length - 4) _ ?_ ?_ hrun
          · rw [wireLength_append]
            simp only [EthernetPayload.getData, hd]
            omega
          · have e : b.length - 4 = off + 2 + (b.length - (off + 2) - 4) := by omega
            rw [segmentBytes_append]
            conv_lhs => rw [e]
            rw [take_add_slices b off _, hacc]
            simp only [EthernetPayload.getType, EthernetPayload.getData]
            rw [bytesOfUint_uintOfBytes bo _ htl, List.append_assoc]

/-- When the payloads of a loaded frame of at least 16 bytes fill exactly the
bytes between the header and the last 4 bytes, the frame written out again is
the data loaded. -/
theorem reserialise_of_tiling (bo : Endian) (f g : EthernetFrame) (b : List Byte)
    (h16 : 16 ≤ b.length) (hload : setFrame bo f b = some (Outcome.returned, g))
    (htile : 12 + wireLength (getPayloads g) + 4 = b.length) :
    reserialise bo g = b := by
  have hmax := setFrame_length_le bo f g b _ hload (by intro hc; cases hc)
  obtain ⟨ps, hp, hg⟩ := (setFrame_eq_some_loaded bo f g b _ (by omega) hmax).1 hload
  subst hg
  have hseg := parseLoop_segmentBytes bo b (by omega) hmax MAX_FRAME_SIZE 12 [] ps rfl
    (by simp [segmentBytes]) hp
  have htile2 : 12 + wireLength ps = b.length - 4 := by
    unfold getPayloads at htile
    dsimp only at htile
    omega
  have h12 : (memcpy f.buffer b).take 6 ++ ((memcpy f.buffer b).drop 6).take 6 = b.take 12 := by
    unfold memcpy
    rw [List.take_append_of_le_length (by omega), slice_append b _ 6 6 (by omega)]
    rw [show (12 : Nat) = 6 + 6 from rfl, List.take_add]
  unfold reserialise getHeader
  dsimp only
  rw [h12, memcpy_checksum_bytes f.buffer b (by omega), ← hseg, htile2, List.take_append_drop]
/-- The `Dot1qTag` that a pass of the loop builds at offset `off` holds the
4 bytes behind the type tag: on it `getTagProtocolIdentifier` reads the two
bytes right behind the type tag and `getTagControlInformation` the two bytes
after those. -/
theorem loopBody_dot1q_accessors (bo : Endian) (b : List Byte) (off : Nat)
    (ps : List EthernetPayload) (hmax : b.length ≤ 1518) (h : off + 6 ≤ b.length)
    (ht : uintOfBytes bo ((b.drop off).take 2) = 0x8100) :
    loopBody bo b b.length off ps =
        LoopStep.next (off + 6)
          (ps ++ [EthernetPayload.dot1qTag ((b.drop (off + 2)).take 4)]) ∧
      Dot1qTag.getTagProtocolIdentifier bo ((b.drop (off + 2)).take 4) =
        some (uintOfBytes bo ((b.drop (off + 2)).take 2)) ∧
      Dot1qTag.getTagControlInformation bo ((b.drop (off + 2)).take 4) =
        some (uintOfBytes bo ((b.drop (off + 4)).take 2)) := by
  have hd : ((b.drop (off + 2)).take 4).length = 4 := by
    rw [List.length_take, List.length_drop]; omega
  refine ⟨loopBody_dot1q bo b b.length off ps hmax (le_refl _) h ht, ?_, ?_⟩
  · unfold Dot1qTag.getTagProtocolIdentifier
    rw [readBytes_eq _ 0 2 (by omega), List.drop_zero, List.take_take,
      Nat.min_eq_left (by omega)]
    rfl
  · unfold Dot1qTag.getTagControlInformation
    rw [readBytes_eq _ 2 2 (by omega), List.drop_take, List.take_take, List.drop_drop,
      Nat.min_eq_left (by omega)]
    rfl

/-! ## The claims on re-serialisation, the checksum field and the tag accessors -/

/-- Claim C11, the code at the failing input: the 18 bytes of `tagThenChecksum`
(12 header bytes, the type tag `0x8100`, 4 checksum bytes) load without error,
and the one payload is a `Dot1qTag` whose data are the 4 checksum bytes; the
frame written out again (header, type tag and data of the payload, checksum)
has 22 bytes, the checksum bytes twice, and is not the data loaded. -/
theorem reserialise_repeats_checksum :
    setFrame Endian.little EthernetFrame.new tagThenChecksum =
        some (Outcome.returned,
          { buffer := memcpy EthernetFrame.new.buffer tagThenChecksum, length := 18,
            payloads := [EthernetPayload.dot1qTag [0xaa, 0xbb, 0xcc, 0xdd]] }) ∧
      reserialise Endian.little
          { buffer := memcpy EthernetFrame.new.buffer tagThenChecksum, length := 18,
            payloads := [EthernetPayload.dot1qTag [0xaa, 0xbb, 0xcc, 0xdd]] } =
        tagThenChecksum ++ [0xaa, 0xbb, 0xcc, 0xdd] ∧
      reserialise Endian.little
          { buffer := memcpy EthernetFrame.new.buffer tagThenChecksum, length := 18,
            payloads := [EthernetPayload.dot1qTag [0xaa, 0xbb, 0xcc, 0xdd]] } ≠
        tagThenChecksum ∧
      16 ≤ tagThenChecksum.length ∧ tagThenChecksum.length ≤ 1518 := by
  decide!

/-- Counterexample for C12: on the frame that holds the 8 bytes of `shortData`
(length 8, less than 16) `getFCS` does not fail; it returns `0x11111111`, the
integer in the last 4 of the 8 bytes. -/
theorem getFCS_short_frame_returns :
    setFrame Endian.little EthernetFrame.new shortData = some (Outcome.returned, shortLoaded) ∧
      shortLoaded.length = 8 ∧ getFCS Endian.little shortLoaded = some 0x11111111 := by
  decide!

/-- Claim C12, amended: on every frame of length at least 4 (kept inside the
buffer), so also for the lengths from 4 to 15, `getFCS` returns the 32-bit
integer that the host sees in the last 4 bytes `buffer[length-4 .. length)`. -/
theorem getFCS_returns_last_four (bo : Endian) (f : EthernetFrame) (h4 : 4 ≤ f.length)
    (hbuf : f.length ≤ f.buffer.length) :
    getFCS bo f = some (uintOfBytes bo ((f.buffer.drop (f.length - 4)).take 4)) ∧
      uintOfBytes bo ((f.buffer.drop (f.length - 4)).take 4) < 2 ^ 32 := by
  constructor
  · unfold getFCS
    rw [sizeSub_eq f.length 4 h4, readBytes_eq _ _ 4 (by omega)]
    rfl
  · have hl : ((f.buffer.drop (f.length - 4)).take 4).length = 4 := by
      rw [List.length_take, List.length_drop]; omega
    have := uintOfBytes_lt bo ((f.buffer.drop (f.length - 4)).take 4)
    rw [hl] at this
    norm_num at this ⊢
    exact this

/-- Witness for C12, amended: the checksum field of the loaded sample frame. -/
theorem getFCS_returns_last_four_witness :
    getFCS Endian.little sampleLoaded =
        some (uintOfBytes Endian.little
          ((sampleLoaded.buffer.drop (sampleLoaded.length - 4)).take 4)) ∧
      uintOfBytes Endian.little
        ((sampleLoaded.buffer.drop (sampleLoaded.length - 4)).take 4) < 2 ^ 32 :=
  getFCS_returns_last_four Endian.little sampleLoaded (by decide) (by decide!)

/-- Counterexample for C13: on a tag of 4 bytes `setVLANIdentifier(4096)` and
`setPriorityCodePoint(8)` return without failure; afterwards the VLAN
identifier reads 0 and the priority code point reads 0. -/
theorem setVLANIdentifier_4096_returns :
    Dot1qTag.setVLANIdentifier Endian.little [0x12, 0x34, 0xc8, 0xb0] 4096 =
        some [0x12, 0x34, 0x00, 0xb0] ∧
      Dot1qTag.getVLANIdentifier Endian.little [0x12, 0x34, 0x00, 0xb0] = some 0 ∧
      Dot1qTag.setPriorityCodePoint Endian.little [0x12, 0x34, 0xc8, 0xb0] 8 =
        some [0x12, 0x34, 0xc8, 0x10] ∧
      Dot1qTag.getPriorityCodePoint Endian.little [0x12, 0x34, 0xc8, 0x10] = some 0 := by
  decide!

/-- Claim C13, amended: the mutators of `Dot1qTag` do not validate the range.
On a tag of 4 bytes `setVLANIdentifier(vid)` returns for every `vid`, also
above 4095, and `getVLANIdentifier` then reads `vid mod 4096`;
`setPriorityCodePoint(pcp)` returns for every `pcp`, also above 7, and
`getPriorityCodePoint` then reads `pcp mod 8`; `setVLANIdentifier(4095)`
returns and 4095 is read back. -/
theorem setters_truncate (bo : Endian) (data : List Byte) (h : data.length = 4) :
    (∀ vid, ∃ data2, Dot1qTag.setVLANIdentifier bo data vid = some data2 ∧
        Dot1qTag.getVLANIdentifier bo data2 = some (vid % 4096)) ∧
      (∀ pcp, ∃ data2, Dot1qTag.setPriorityCodePoint bo data pcp = some data2 ∧
        Dot1qTag.getPriorityCodePoint bo data2 = some (pcp % 8)) ∧
      (∃ data2, Dot1qTag.setVLANIdentifier bo data 4095 = some data2 ∧
        Dot1qTag.getVLANIdentifier bo data2 = some 4095) := by
  obtain ⟨ht, hlt⟩ := getTagControlInformation_eq bo data h
  have hvid : ∀ vid, ∃ data2, Dot1qTag.setVLANIdentifier bo data vid = some data2 ∧
      Dot1qTag.getVLANIdentifier bo data2 = some (vid % 4096) := by
    intro vid
    obtain ⟨d2, h1, -, -, h4, h5⟩ := write_spec bo data _ (TciWrite.vlanIdentifier vid) h ht hlt
    refine ⟨d2, h1, ?_⟩
    rw [(getters_of_tci bo d2 _ h4 h5).2.2]
    simp only [tciAfter]
    congr 1
    omega
  refine ⟨hvid, ?_, hvid 4095⟩
  intro pcp
  obtain ⟨d2, h1, -, -, h4, h5⟩ := write_spec bo data _ (TciWrite.priorityCodePoint pcp) h ht hlt
  refine ⟨d2, h1, ?_⟩
  rw [(getters_of_tci bo d2 _ h4 h5).1]
  simp only [tciAfter]
  congr 1
  omega

/-- Witness for C13, amended: the tag of the tagged sample frame. -/
theorem setters_truncate_witness :
    (∀ vid, ∃ data2, Dot1qTag.setVLANIdentifier Endian.little [0x12, 0x34, 0xc8, 0xb0] vid =
          some data2 ∧
        Dot1qTag.getVLANIdentifier Endian.little data2 = some (vid % 4096)) ∧
      (∀ pcp, ∃ data2, Dot1qTag.setPriorityCodePoint Endian.little [0x12, 0x34, 0xc8, 0xb0] pcp =
          some data2 ∧
        Dot1qTag.getPriorityCodePoint Endian.little data2 = some (pcp % 8)) ∧
      (∃ data2, Dot1qTag.setVLANIdentifier Endian.little [0x12, 0x34, 0xc8, 0xb0] 4095 =
          some data2 ∧
        Dot1qTag.getVLANIdentifier Endian.little data2 = some 4095) :=
  setters_truncate Endian.little [0x12, 0x34, 0xc8, 0xb0] (by decide)

/-- Claim C14: on a tag holding any 4 bytes, for every `vid` up to 4095, `pcp`
up to 7 and `dei`, the three calls `setVLANIdentifier(vid)`,
`setPriorityCodePoint(pcp)` and `setDropEligibleIndicator(dei)`, made in any
order, all return, and afterwards `getVLANIdentifier` reads `vid`,
`getPriorityCodePoint` reads `pcp` and `getDropEligibleIndicator` reads `dei`;
bytes 0 and 1 of the tag are untouched. -/
theorem setters_getters_round_trip (bo : Endian) (data : List Byte) (vid pcp : Nat)
    (dei : Bool) (ws : List TciWrite) (h : data.length = 4) (hvid : vid ≤ 4095)
    (hpcp : pcp ≤ 7)
    (hws : ws.Perm [TciWrite.vlanIdentifier vid, TciWrite.priorityCodePoint pcp,
      TciWrite.dropEligibleIndicator dei]) :
    ∃ data2, Dot1qTag.writeAll bo data ws = some data2 ∧
      Dot1qTag.getVLANIdentifier bo data2 = some vid ∧
      Dot1qTag.getPriorityCodePoint bo data2 = some pcp ∧
      Dot1qTag.getDropEligibleIndicator bo data2 = some dei ∧
      data2.take 2 = data.take 2 := by
  obtain ⟨ht, hlt⟩ := getTagControlInformation_eq bo data h
  obtain ⟨d2, h1, -, h3, h4, h5⟩ := writeAll_spec bo ws data _ h ht hlt
  obtain ⟨g1, g2, g3⟩ := getters_of_tci bo d2 _ h4 h5
  refine ⟨d2, h1, ?_, ?_, ?_, h3⟩
  all_goals
    first
      | rw [g3]
      | rw [g1]
      | rw [g2]
  all_goals
    have hlen := hws.length_eq
    match ws, hws, hlen with
    | [x, y, z], hws, _ =>
      have hx : x ∈ [TciWrite.vlanIdentifier vid, TciWrite.priorityCodePoint pcp,
          TciWrite.dropEligibleIndicator dei] := hws.subset (by simp)
      have hy : y ∈ [TciWrite.vlanIdentifier vid, TciWrite.priorityCodePoint pcp,
          TciWrite.dropEligibleIndicator dei] := hws.subset (by simp)
      have hz : z ∈ [TciWrite.vlanIdentifier vid, TciWrite.priorityCodePoint pcp,
          TciWrite.dropEligibleIndicator dei] := hws.subset (by simp)
      have ha : TciWrite.vlanIdentifier vid ∈ [x, y, z] := hws.symm.subset (by simp)
      have hb : TciWrite.priorityCodePoint pcp ∈ [x, y, z] := hws.symm.subset (by simp)
      have hc : TciWrite.dropEligibleIndicator dei ∈ [x, y, z] := hws.symm.subset (by simp)
      simp only [List.mem_cons, List.mem_singleton, List.not_mem_nil, or_false] at hx hy hz
      rcases hx with rfl | rfl | rfl <;> rcases hy with rfl | rfl | rfl <;>
        rcases hz with rfl | rfl | rfl <;>
        simp only [List.mem_cons, List.mem_singleton, List.not_mem_nil, or_false, reduceCtorEq,
          or_self, or_true, true_or] at ha hb hc <;>
        simp only [List.foldl, tciAfter] <;>
        first
          | (congr 1; omega)
          | (congr 1; cases dei <;> simp <;> omega)

/-- Witness for C14: vid 100, pcp 3, dei false, written in the order dei, vid,
pcp over a tag that held other values. -/
theorem setters_getters_round_trip_witness :
    ∃ data2, Dot1qTag.writeAll Endian.little [0x12, 0x34, 0xc8, 0xb0]
        [TciWrite.dropEligibleIndicator false, TciWrite.vlanIdentifier 100,
          TciWrite.priorityCodePoint 3] = some data2 ∧
      Dot1qTag.getVLANIdentifier Endian.little data2 = some 100 ∧
      Dot1qTag.getPriorityCodePoint Endian.little data2 = some 3 ∧
      Dot1qTag.getDropEligibleIndicator Endian.little data2 = some false ∧
      data2.take 2 = [0x12, 0x34] :=
  setters_getters_round_trip Endian.little [0x12, 0x34, 0xc8, 0xb0] 100 3 false
    [TciWrite.dropEligibleIndicator false, TciWrite.vlanIdentifier 100,
      TciWrite.priorityCodePoint 3] (by decide) (by decide) (by decide) (by decide)

/-- Claim C15: on a tag of 4 bytes the TCI `t` is a 16-bit value,
`getPriorityCodePoint` is its bits 15 to 13 (`t / 2^13`, at most 7),
`getDropEligibleIndicator` its bit 12 and `getVLANIdentifier` its bits 11 to 0
(`t mod 2^12`, at most 4095), and the three fields give `t` back:
`t = pcp * 8192 + (dei ? 4096 : 0) + vid`. -/
theorem tci_fields (bo : Endian) (data : List Byte) (h : data.length = 4) :
    ∃ t pcp dei vid, Dot1qTag.getTagControlInformation bo data = some t ∧ t < 65536 ∧
      Dot1qTag.getPriorityCodePoint bo data = some pcp ∧
      Dot1qTag.getDropEligibleIndicator bo data = some dei ∧
      Dot1qTag.getVLANIdentifier bo data = some vid ∧
      pcp = t / 2 ^ 13 ∧ pcp ≤ 7 ∧
      (dei = true ↔ t.testBit 12 = true) ∧
      vid = t % 2 ^ 12 ∧ vid ≤ 4095 ∧
      t = pcp * 8192 + (if dei then 4096 else 0) + vid := by
  obtain ⟨ht, hlt⟩ := getTagControlInformation_eq bo data h
  obtain ⟨g1, g2, g3⟩ := getters_of_tci bo data _ ht hlt
  refine ⟨_, _, _, _, ht, hlt, g1, g2, g3, by norm_num, by omega, ?_, by norm_num, by omega, ?_⟩
  · rw [Nat.testBit_to_div_mod]
  · by_cases hd : uintOfBytes bo ((data.drop 2).take 2) / 4096 % 2 = 1
    · simp only [hd, decide_True, if_true]
      omega
    · simp only [hd, decide_False, Bool.false_eq_true, if_false]
      omega

/-- Witness for C15: the tag of the tagged sample frame, TCI `0xb0c8`. -/
theorem tci_fields_witness :
    ∃ t pcp dei vid,
      Dot1qTag.getTagControlInformation Endian.little [0x12, 0x34, 0xc8, 0xb0] = some t ∧
      t < 65536 ∧
      Dot1qTag.getPriorityCodePoint Endian.little [0x12, 0x34, 0xc8, 0xb0] = some pcp ∧
      Dot1qTag.getDropEligibleIndicator Endian.little [0x12, 0x34, 0xc8, 0xb0] = some dei ∧
      Dot1qTag.getVLANIdentifier Endian.little [0x12, 0x34, 0xc8, 0xb0] = some vid ∧
      pcp = t / 2 ^ 13 ∧ pcp ≤ 7 ∧
      (dei = true ↔ t.testBit 12 = true) ∧
      vid = t % 2 ^ 12 ∧ vid ≤ 4095 ∧
      t = pcp * 8192 + (if dei then 4096 else 0) + vid :=
  tci_fields Endian.little [0x12, 0x34, 0xc8, 0xb0] (by decide)

/-- Claim C16, the code at a failing input: the `Dot1qTag` that `setFrame`
builds from the sample frame holds the 4 bytes `00 64 08 00` that follow the
type tag `0x8100`. On it `getTagProtocolIdentifier` returns `0x6400`, the
integer in the two bytes right after the type tag, and not `0x8100`;
`getTagControlInformation` returns `0x0008`, the integer in the two bytes
after those. -/
theorem dot1q_accessors_read_two_bytes_late :
    setFrame Endian.little EthernetFrame.new sampleFrame = some (Outcome.returned, sampleLoaded) ∧
      getPayloads sampleLoaded = [EthernetPayload.dot1qTag [0x00, 0x64, 0x08, 0x00],
        EthernetPayload.generic 0x0800 [0xde, 0xad, 0xbe, 0xef]] ∧
      uintOfBytes Endian.little ((sampleFrame.drop 12).take 2) = 0x8100 ∧
      uintOfBytes Endian.little ((sampleFrame.drop 14).take 2) = 0x6400 ∧
      Dot1qTag.getTagProtocolIdentifier Endian.little [0x00, 0x64, 0x08, 0x00] = some 0x6400 ∧
      Dot1qTag.getTagControlInformation Endian.little [0x00, 0x64, 0x08, 0x00] = some 0x0008 ∧
      (EthernetPayload.dot1qTag [0x00, 0x64, 0x08, 0x00]).getType = 0x8100 := by
  decide!

/-- Claim C17: for every 12-byte header `h` and every 4 tag bytes `t`, with
`body = h ++ (the 2 bytes the host stores for 0x8100) ++ t` and `c` the 4 bytes
the host stores for `calculateCRC32 body`, `setFrame (body ++ c)` returns with
exactly one payload, a `Dot1qTag` with data `t`, and `validateFCS` is true. -/
theorem setFrame_single_tag_valid (bo : Endian) (f : EthernetFrame) (h t : List Byte)
    (hh : h.length = 12) (ht : t.length = 4) :
    ∃ g, setFrame bo f (h ++ bytesOfUint bo 2 0x8100 ++ t ++
        bytesOfUint bo 4 (calculateCRC32 (h ++ bytesOfUint bo 2 0x8100 ++ t))) =
          some (Outcome.returned, g) ∧
      getPayloads g = [EthernetPayload.dot1qTag t] ∧ validateFCS bo g = some true := by
  have htg : (bytesOfUint bo 2 0x8100).length = 2 := bytesOfUint_length bo 2 _
  have hc : (bytesOfUint bo 4 (calculateCRC32 (h ++ bytesOfUint bo 2 0x8100 ++ t))).length = 4 :=
    bytesOfUint_length bo 4 _
  generalize hbody : h ++ bytesOfUint bo 2 0x8100 ++ t = body at hc ⊢
  have hbl : body.length = 18 := by
    rw [← hbody, List.length_append, List.length_append, hh, htg, ht]
  generalize hcdef : bytesOfUint bo 4 (calculateCRC32 body) = c at hc ⊢
  have hlen : (body ++ c).length = 22 := by rw [List.length_append, hbl, hc]
  have htag : ((body ++ c).drop 12).take 2 = bytesOfUint bo 2 0x8100 := by
    rw [← hbody, List.append_assoc, List.append_assoc, List.drop_left' hh,
      List.take_left' htg]
  have hdata : ((body ++ c).drop (12 + 2)).take 4 = t := by
    have h14 : (h ++ bytesOfUint bo 2 0x8100).length = 12 + 2 := by
      rw [List.length_append, hh, htg]
    rw [← hbody, List.append_assoc (h ++ bytesOfUint bo 2 0x8100), List.drop_left' h14,
      List.take_left' ht]
  have hval : uintOfBytes bo (bytesOfUint bo 2 0x8100) = 0x8100 := by
    rw [uintOfBytes_bytesOfUint]
    rfl
  refine ⟨{ buffer := memcpy f.buffer (body ++ c), length := (body ++ c).length,
            payloads := [EthernetPayload.dot1qTag t] }, ?_, rfl, ?_⟩
  · refine (setFrame_eq_some_loaded bo f _ _ _ (by omega) (by omega)).2 ⟨_, ?_, rfl⟩
    have e : MAX_FRAME_SIZE = 1516 + 1 + 1 := rfl
    rw [e, parseLoop, loopBody_dot1q bo (body ++ c) (body ++ c).length 12 [] (by omega)
      (le_refl _) (by omega) (by rw [htag]; exact hval)]
    dsimp only
    rw [parseLoop, loopBody_exit bo (body ++ c) (body ++ c).length (12 + 6) _ (by omega)
      (by omega), hdata]
    rfl
  · rw [validateFCS_memcpy bo f.buffer (body ++ c) _ (by omega)]
    have e18 : (body ++ c).length - 4 = 18 := by omega
    rw [e18, List.take_left' hbl, List.drop_left' hbl, ← hcdef, uintOfBytes_bytesOfUint]
    have hcrc := calculateCRC32_lt body
    have : calculateCRC32 body % 256 ^ 4 = calculateCRC32 body :=
      Nat.mod_eq_of_lt (by norm_num at hcrc ⊢; exact hcrc)
    rw [this]
    simp

/-- Witness for C17: the tagged sample frame, whose tag bytes hold the TCI with
pcp 5, dei 1, vid 200. -/
theorem setFrame_single_tag_valid_witness :
    [0x01, 0x02, 0x03, 0x04, 0x05, 0x06, 0x0a, 0x0b, 0x0c, 0x0d, 0x0e, 0x0f] ++
        bytesOfUint Endian.little 2 0x8100 ++ [0x12, 0x34, 0xc8, 0xb0] ++
        bytesOfUint Endian.little 4 (calculateCRC32
          ([0x01, 0x02, 0x03, 0x04, 0x05, 0x06, 0x0a, 0x0b, 0x0c, 0x0d, 0x0e, 0x0f] ++
            bytesOfUint Endian.little 2 0x8100 ++ [0x12, 0x34, 0xc8, 0xb0])) = taggedFrame ∧
      Dot1qTag.getPriorityCodePoint Endian.little [0x12, 0x34, 0xc8, 0xb0] = some 5 ∧
      Dot1qTag.getDropEligibleIndicator Endian.little [0x12, 0x34, 0xc8, 0xb0] = some true ∧
      Dot1qTag.getVLANIdentifier Endian.little [0x12, 0x34, 0xc8, 0xb0] = some 200 ∧
      ∃ g, setFrame Endian.little EthernetFrame.new
          ([0x01, 0x02, 0x03, 0x04, 0x05, 0x06, 0x0a, 0x0b, 0x0c, 0x0d, 0x0e, 0x0f] ++
            bytesOfUint Endian.little 2 0x8100 ++ [0x12, 0x34, 0xc8, 0xb0] ++
            bytesOfUint Endian.little 4 (calculateCRC32
              ([0x01, 0x02, 0x03, 0x04, 0x05, 0x06, 0x0a, 0x0b, 0x0c, 0x0d, 0x0e, 0x0f] ++
                bytesOfUint Endian.little 2 0x8100 ++ [0x12, 0x34, 0xc8, 0xb0]))) =
            some (Outcome.returned, g) ∧
        getPayloads g = [EthernetPayload.dot1qTag [0x12, 0x34, 0xc8, 0xb0]] ∧
        validateFCS Endian.little g = some true :=
  ⟨by decide!, by decide!, by decide!, by decide!,
    setFrame_single_tag_valid Endian.little EthernetFrame.new
      [0x01, 0x02, 0x03, 0x04, 0x05, 0x06, 0x0a, 0x0b, 0x0c, 0x0d, 0x0e, 0x0f]
      [0x12, 0x34, 0xc8, 0xb0] (by decide) (by decide)⟩

/-- Counterexample for C18: (1) the 12 bytes of `shortChecked` load and
validate, and with bit 0 of the checksum flipped they load again, but the
source address of the header, which overlaps the checksum, reads `33` instead
of `32` in its byte 2; (2) the 18 bytes of `tagThenCrc` load and validate, and
with bit 0 of the checksum flipped they load again, but the `Dot1qTag`, which
holds the checksum bytes, has data `07 f1 35 13` instead of `06 f1 35 13`. -/
theorem checksum_bit_flip_changes_parse :
    (setFrame Endian.little EthernetFrame.new shortChecked).map
          (fun r => (r.1, (getHeader r.2).source, validateFCS Endian.little r.2)) =
        some (Outcome.returned, [0x0a, 0x0b, 0x32, 0xa7, 0x6d, 0x13], some true) ∧
      (setFrame Endian.little EthernetFrame.new (flipChecksumBit shortChecked 0)).map
          (fun r => (r.1, (getHeader r.2).source, validateFCS Endian.little r.2)) =
        some (Outcome.returned, [0x0a, 0x0b, 0x33, 0xa7, 0x6d, 0x13], some false) ∧
      (setFrame Endian.little EthernetFrame.new tagThenCrc).map
          (fun r => (r.1, getPayloads r.2, validateFCS Endian.little r.2)) =
        some (Outcome.returned, [EthernetPayload.dot1qTag [0x06, 0xf1, 0x35, 0x13]],
          some true) ∧
      (setFrame Endian.little EthernetFrame.new (flipChecksumBit tagThenCrc 0)).map
          (fun r => (r.1, getPayloads r.2, validateFCS Endian.little r.2)) =
        some (Outcome.returned, [EthernetPayload.dot1qTag [0x07, 0xf1, 0x35, 0x13]],
          some false) := by
  decide!

/-- Claim C18, amended: for every data `b` of at least 16 bytes that loads with
`validateFCS` true and whose payloads fill exactly the bytes between the header
and the last 4 bytes (`12 + wireLength + 4 = length`), and for each of the 32
bits of the last 4 bytes, `b` with that bit flipped loads again, on any frame,
with the same header and the same payloads, and `validateFCS` is false. -/
theorem setFrame_checksum_bit_flip (bo : Endian) (f f2 g : EthernetFrame) (b : List Byte)
    (k : Nat) (h16 : 16 ≤ b.length) (hload : setFrame bo f b = some (Outcome.returned, g))
    (hvalid : validateFCS bo g = some true)
    (htile : 12 + wireLength (getPayloads g) + 4 = b.length) (hk : k < 32) :
    ∃ g2, setFrame bo f2 (flipChecksumBit b k) = some (Outcome.returned, g2) ∧
      getHeader g2 = getHeader g ∧ getPayloads g2 = getPayloads g ∧
      validateFCS bo g2 = some false := by
  have hmax := setFrame_length_le bo f g b _ hload (by intro hc; cases hc)
  obtain ⟨ps, hp, hg⟩ := (setFrame_eq_some_loaded bo f g b _ (by omega) hmax).1 hload
  subst hg
  have hlen := flipChecksumBit_length b k
  have htake := flipChecksumBit_take b k
  have hp2 := parseLoop_of_take_eq bo b (flipChecksumBit b k) (by omega) hmax hlen htake
    MAX_FRAME_SIZE 12 [] ps rfl hp htile
  have hp3 : parseLoop bo (flipChecksumBit b k) (flipChecksumBit b k).length MAX_FRAME_SIZE 12 [] =
      some (Outcome.returned, ps) := by rw [hlen]; exact hp2
  refine ⟨{ buffer := memcpy f2.buffer (flipChecksumBit b k),
            length := (flipChecksumBit b k).length, payloads := ps },
    (setFrame_eq_some_loaded bo f2 _ _ _ (by omega) (by omega)).2 ⟨ps, hp3, rfl⟩, ?_, rfl, ?_⟩
  · unfold getHeader memcpy
    dsimp only
    rw [List.take_append_of_le_length (by omega), List.take_append_of_le_length (by omega),
      slice_append _ _ 6 6 (by omega), slice_append _ _ 6 6 (by omega),
      slice_of_take_eq b _ _ 6 6 htake (by omega)]
    have h6 := slice_of_take_eq b (flipChecksumBit b k) _ 0 6 htake (by omega)
    rw [List.drop_zero, List.drop_zero] at h6
    rw [h6]
  · rw [validateFCS_memcpy bo f.buffer b ps (by omega)] at hvalid
    injection hvalid with hvalid
    rw [decide_eq_true_iff] at hvalid
    rw [validateFCS_memcpy bo f2.buffer _ ps (by omega), hlen, htake, hvalid]
    congr 1
    rw [decide_eq_false_iff_not]
    intro heq
    exact flipChecksumBit_drop_ne b k (by omega) hk
      (uintOfBytes_injective bo _ _
        (by rw [List.length_drop, List.length_drop, hlen]) heq.symm)

/-- Witness for C18, amended: the sample frame with bit 9 of its checksum flipped. -/
theorem setFrame_checksum_bit_flip_witness :
    setFrame Endian.little EthernetFrame.new sampleFrame = some (Outcome.returned, sampleLoaded) ∧
      validateFCS Endian.little sampleLoaded = some true ∧
      ∃ g2, setFrame Endian.little sampleLoaded (flipChecksumBit sampleFrame 9) =
          some (Outcome.returned, g2) ∧
        getHeader g2 = getHeader sampleLoaded ∧ getPayloads g2 = getPayloads sampleLoaded ∧
        validateFCS Endian.little g2 = some false :=
  ⟨by decide!, by decide!,
    setFrame_checksum_bit_flip Endian.little EthernetFrame.new sampleLoaded sampleLoaded
      sampleFrame 9 (by decide) (by decide!) (by decide!) (by decide) (by decide)⟩

/-- Claim C19: for every data of exactly 16 bytes, whatever they are,
`setFrame` returns and the frame has no payloads. -/
theorem setFrame_sixteen_bytes (bo : Endian) (f : EthernetFrame) (b : List Byte)
    (h16 : b.length = 16) :
    setFrame bo f b = some (Outcome.returned,
      { buffer := memcpy f.buffer b, length := 16, payloads := [] }) := by
  refine (setFrame_eq_some_loaded bo f _ b _ (by omega) (by omega)).2 ⟨[], ?_, by rw [h16]⟩
  have e : MAX_FRAME_SIZE = 1517 + 1 := rfl
  rw [e, parseLoop, loopBody_exit bo b b.length 12 [] (by omega) (by omega)]

/-- Witness for C19: 16 bytes `0xff` on a fresh frame. -/
theorem setFrame_sixteen_bytes_witness :
    setFrame Endian.little EthernetFrame.new (List.replicate 16 0xff) =
      some (Outcome.returned,
        { buffer := memcpy EthernetFrame.new.buffer (List.replicate 16 0xff), length := 16,
          payloads := [] }) :=
  setFrame_sixteen_bytes Endian.little EthernetFrame.new (List.replicate 16 0xff) (by decide)

/-- Claim C20, the code at the failing inputs: `setFrame` of the empty data.
The bound `(len - 16) / 2` rounded up is 0, but `length - 4` wraps around and
the loop body runs. On a fresh frame it runs once: it reads the type tag 0 at
offset 12 and ends outside the buffer with a payload length of `2^64 - 18`. On
the frame that held the sample frame it runs twice: the first pass builds a
`Dot1qTag` from the bytes left in the buffer, the second starts at offset 18
and ends outside the buffer. -/
theorem setFrame_empty_runs_loop :
    (([] : List Byte).length - 16 + 1) / 2 = 0 ∧
      loopBody Endian.little EthernetFrame.new.buffer 0 12 [] =
        LoopStep.stop Outcome.outsideBuffer [] ∧
      sizeSub (sizeSub 0 14) 4 = 2 ^ 64 - 18 ∧
      setFrame Endian.little EthernetFrame.new [] =
        some (Outcome.outsideBuffer,
          { buffer := EthernetFrame.new.buffer, length := 0, payloads := [] }) ∧
      loopHead Endian.little sampleLoaded.buffer 0 1 =
        some (18, [EthernetPayload.dot1qTag [0x00, 0x64, 0x08, 0x00]]) ∧
      setFrame Endian.little sampleLoaded [] =
        some (Outcome.outsideBuffer,
          { buffer := sampleLoaded.buffer, length := 0,
            payloads := [EthernetPayload.dot1qTag [0x00, 0x64, 0x08, 0x00]] }) := by
  decide!

/-! ## Lemmas on the checksum of data that differ in one byte -/

/-- One round of the checksum loses nothing of a 32-bit accumulator: the bit
shifted out decides bit 31 of the result. -/
theorem isoHdlcRound_injective (c d : Nat) (hc : c < 2 ^ 32) (hd : d < 2 ^ 32)
    (h : isoHdlcRound c = isoHdlcRound d) : c = d := by
  unfold isoHdlcRound at h
  have hbit : ∀ x : Nat, x < 2 ^ 32 →
      ((x / 2) ^^^ (if x % 2 = 1 then 0xEDB88320 else 0)).testBit 31 = decide (x % 2 = 1) := by
    intro x hx
    have hx2 : (x / 2).testBit 31 = false :=
      Nat.testBit_lt_two_pow (by norm_num at hx ⊢; omega)
    rw [Nat.testBit_xor, hx2]
    by_cases hodd : x % 2 = 1
    · simp only [hodd, if_true, decide_True]
      decide
    · simp only [hodd, if_false, decide_False]
      decide
  have h31 := congrArg (fun x => x.testBit 31) h
  dsimp only at h31
  rw [hbit c hc, hbit d hd] at h31
  have hpar : (c % 2 = 1) ↔ (d % 2 = 1) := by
    constructor
    · intro h1
      have : decide (c % 2 = 1) = true := decide_eq_true h1
      rw [h31] at this
      exact of_decide_eq_true this
    · intro h1
      have : decide (d % 2 = 1) = true := decide_eq_true h1
      rw [← h31] at this
      exact of_decide_eq_true this
  have hhalf : c / 2 = d / 2 := by
    by_cases hodd : c % 2 = 1
    · have hodd2 := hpar.1 hodd
      rw [if_pos hodd, if_pos hodd2] at h
      exact Nat.xor_left_inj.1 h
    · have hodd2 : ¬ d % 2 = 1 := fun hx => hodd (hpar.2 hx)
      rw [if_neg hodd, if_neg hodd2] at h
      exact Nat.xor_left_inj.1 h
  omega

theorem iterate_isoHdlcRound_injective (j c d : Nat) (hc : c < 2 ^ 32) (hd : d < 2 ^ 32)
    (h : isoHdlcRound^[j] c = isoHdlcRound^[j] d) : c = d := by
  induction j generalizing c d with
  | zero => exact h
  | succ j ih =>
    rw [Function.iterate_succ_apply, Function.iterate_succ_apply] at h
    exact isoHdlcRound_injective c d hc hd
      (ih _ _ (isoHdlcRound_lt c hc) (isoHdlcRound_lt d hd) h)

theorem crc_step_lt (c : Nat) (b : Byte) (hc : c < 2 ^ 32) :
    crcBitLoop 8 (c ^^^ b.val) < 2 ^ 32 := by
  rw [crcBitLoop_eq_iterate]
  exact iterate_isoHdlcRound_lt 8 _ (Nat.xor_lt_two_pow hc (lt_trans b.isLt (by norm_num)))

/-- Two different 32-bit accumulators stay different over the same bytes. -/
theorem crcByteLoop_state_ne (data : List Byte) (c d : Nat) (hc : c < 2 ^ 32) (hd : d < 2 ^ 32)
    (hne : c ≠ d) : crcByteLoop data c ≠ crcByteLoop data d := by
  induction data generalizing c d with
  | nil => exact hne
  | cons b rest ih =>
    rw [crcByteLoop, crcByteLoop]
    apply ih _ _ (crc_step_lt c b hc) (crc_step_lt d b hd)
    intro heq
    rw [crcBitLoop_eq_iterate, crcBitLoop_eq_iterate] at heq
    have := iterate_isoHdlcRound_injective 8 _ _
      (Nat.xor_lt_two_pow hc (lt_trans b.isLt (by norm_num)))
      (Nat.xor_lt_two_pow hd (lt_trans b.isLt (by norm_num))) heq
    exact hne (Nat.xor_left_inj.1 this)

/-- Data that differ from `a` in the one byte at index `i` take a 32-bit
accumulator to a different value. -/
theorem crcByteLoop_set_ne (a : List Byte) (i : Nat) (v : Byte) (c : Nat) (hi : i < a.length)
    (hv : v ≠ a.getD i 0) (hc : c < 2 ^ 32) :
    crcByteLoop (a.set i v) c ≠ crcByteLoop a c := by
  induction a generalizing i c with
  | nil => simp at hi
  | cons x rest ih =>
    cases i with
    | zero =>
      rw [List.set_cons_zero, crcByteLoop, crcByteLoop]
      apply crcByteLoop_state_ne rest _ _ (crc_step_lt c v hc) (crc_step_lt c x hc)
      intro heq
      rw [crcBitLoop_eq_iterate, crcBitLoop_eq_iterate] at heq
      have := iterate_isoHdlcRound_injective 8 _ _
        (Nat.xor_lt_two_pow hc (lt_trans v.isLt (by norm_num)))
        (Nat.xor_lt_two_pow hc (lt_trans x.isLt (by norm_num))) heq
      have hvx : v.val = x.val := Nat.xor_right_inj.1 this
      apply hv
      rw [List.getD_cons_zero]
      exact Fin.ext hvx
    | succ j =>
      rw [List.set_cons_succ, crcByteLoop, crcByteLoop]
      apply ih j _ (by simpa using hi) _ (crc_step_lt c x hc)
      rw [List.getD_cons_succ] at hv
      exact hv

/-- A single flipped bit changes the CRC-32. -/
theorem calculateCRC32_flipBitAt_ne (a : List Byte) (k : Nat) (hk : k < 8 * a.length) :
    calculateCRC32 (flipBitAt a k) ≠ calculateCRC32 a := by
  have hne := crcByteLoop_set_ne a (k / 8) (flipByteBit (a.getD (k / 8) 0) k) 0xFFFFFFFF
    (by omega) (flipByteBit_ne _ _) (by norm_num)
  have h1 := crcByteLoop_lt (a.set (k / 8) (flipByteBit (a.getD (k / 8) 0) k)) 0xFFFFFFFF
    (by norm_num)
  have h2 := crcByteLoop_lt a 0xFFFFFFFF (by norm_num)
  unfold calculateCRC32 flipBitAt notU32
  generalize crcByteLoop (a.set (k / 8) (flipByteBit (a.getD (k / 8) 0) k)) 0xFFFFFFFF = x
    at hne h1 ⊢
  generalize crcByteLoop a 0xFFFFFFFF = y at hne h2 ⊢
  have e : (2 : Nat) ^ 32 = 4294967296 := by norm_num
  rw [e] at h1 h2
  omega

theorem flipBitAt_take (b : List Byte) (k m : Nat) (hk : k / 8 < m) :
    (flipBitAt b k).take m = flipBitAt (b.take m) k := by
  unfold flipBitAt
  rw [List.set_take, List.getD_eq_getElem?_getD, List.getD_eq_getElem?_getD,
    List.getElem?_take_of_lt hk]

theorem flipBitAt_length (b : List Byte) (k : Nat) : (flipBitAt b k).length = b.length := by
  unfold flipBitAt
  rw [List.length_set]

/-! ## Lemmas on the reads of the loop -/

/-- With at least 4 bytes loaded the loop never reads outside the buffer. -/
theorem parseLoop_ne_outsideBuffer (bo : Endian) (buf : List Byte) (len : Nat) (h4 : 4 ≤ len)
    (hmax : len ≤ 1518) (hbuf : len ≤ buf.length) (fuel off : Nat)
    (ps ps2 : List EthernetPayload) :
    parseLoop bo buf len fuel off ps ≠ some (Outcome.outsideBuffer, ps2) := by
  induction fuel generalizing off ps with
  | zero => intro h; rw [parseLoop] at h; cases h
  | succ n ih =>
    rw [parseLoop]
    by_cases h1 : len - 4 ≤ off
    · rw [loopBody_exit _ _ _ _ _ h4 h1]
      intro h; cases h
    · by_cases h2 : off + 5 = len
      · rw [loopBody_one_byte _ _ _ _ _ hmax h2]
        intro h; cases h
      · by_cases h8 : uintOfBytes bo ((buf.drop off).take 2) = 0x8100
        · rw [loopBody_dot1q _ _ _ _ _ hmax hbuf (by omega) h8]
          exact ih _ _
        · rw [loopBody_generic _ _ _ _ _ hmax hbuf (by omega) h8]
          exact ih _ _

/-- With at least 4 bytes loaded, the ranges that a pass at an offset of at
least 12 reads lie between index 12 and the loaded length. -/
theorem loopBodyReads_bounds (bo : Endian) (buf : List Byte) (len off : Nat) (h4 : 4 ≤ len)
    (hmax : len ≤ 1518) (hbuf : len ≤ buf.length) (h12 : 12 ≤ off) (r : Nat × Nat)
    (hr : r ∈ loopBodyReads bo buf len off) : 12 ≤ r.1 ∧ r.1 + r.2 ≤ len := by
  unfold loopBodyReads at hr
  rw [sizeSub_eq len 4 h4] at hr
  by_cases h1 : off < len - 4
  · rw [if_neg (by omega), sizeAdd_eq off 2 (by unfold SIZE_MOD; omega)] at hr
    by_cases h2 : off + 2 > len - 4
    · rw [if_pos h2] at hr
      cases hr
    · rw [if_neg h2, readBytes_eq buf off 2 (by omega)] at hr
      dsimp only at hr
      by_cases h8 : uintOfBytes bo ((buf.drop off).take 2) = 0x8100
      · rw [if_pos h8] at hr
        simp only [List.mem_cons, List.mem_singleton, List.not_mem_nil, or_false] at hr
        rcases hr with rfl | rfl <;> dsimp only <;> omega
      · rw [if_neg h8, sizeSub_eq len (off + 2) (by omega),
          sizeSub_eq (len - (off + 2)) 4 (by omega)] at hr
        simp only [List.mem_cons, List.mem_singleton, List.not_mem_nil, or_false] at hr
        rcases hr with rfl | rfl <;> dsimp only <;> omega
  · rw [if_pos (by omega)] at hr
    cases hr

/-- With at least 4 bytes loaded, no `size_t` subtraction of a pass wraps around. -/
theorem loopBodySubtractions_bounds (bo : Endian) (buf : List Byte) (len off : Nat)
    (h4 : 4 ≤ len) (hmax : len ≤ 1518) (hbuf : len ≤ buf.length) (s : Nat × Nat)
    (hs : s ∈ loopBodySubtractions bo buf len off) : s.2 ≤ s.1 := by
  unfold loopBodySubtractions at hs
  rw [sizeSub_eq len 4 h4] at hs
  by_cases h1 : off < len - 4
  · rw [if_neg (by omega), sizeAdd_eq off 2 (by unfold SIZE_MOD; omega)] at hs
    by_cases h2 : off + 2 > len - 4
    · rw [if_pos h2] at hs
      simp only [List.mem_cons, List.mem_singleton, List.not_mem_nil, or_false] at hs
      rcases hs with rfl | rfl <;> dsimp only <;> omega
    · rw [if_neg h2, readBytes_eq buf off 2 (by omega)] at hs
      dsimp only at hs
      by_cases h8 : uintOfBytes bo ((buf.drop off).take 2) = 0x8100
      · rw [if_pos h8] at hs
        simp only [List.mem_cons, List.mem_singleton, List.not_mem_nil, or_false] at hs
        rcases hs with rfl | rfl <;> dsimp only <;> omega
      · rw [if_neg h8, sizeSub_eq len (off + 2) (by omega)] at hs
        simp only [List.mem_cons, List.mem_singleton, List.not_mem_nil, or_false] at hs
        rcases hs with rfl | rfl | rfl | rfl <;> dsimp only <;> omega
  · rw [if_pos (by omega)] at hs
    simp only [List.mem_singleton] at hs
    subst hs
    exact h4

/-- The ranges listed by `loopBodyReads` are the reads of `loopBody`: a pass
ends outside the buffer exactly when one of these ranges is not inside the
buffer. -/
theorem loopBody_outsideBuffer_iff (bo : Endian) (buf : List Byte) (len off : Nat)
    (ps : List EthernetPayload) :
    loopBody bo buf len off ps = LoopStep.stop Outcome.outsideBuffer ps ↔
      ∃ r ∈ loopBodyReads bo buf len off, ¬ (r.1 + r.2 ≤ buf.length) := by
  unfold loopBody loopBodyReads
  by_cases h1 : ¬ (off < sizeSub len 4)
  · rw [if_pos h1, if_pos h1]
    simp
  · rw [if_neg h1, if_neg h1]
    by_cases h2 : sizeAdd off 2 > sizeSub len 4
    · rw [if_pos h2, if_pos h2]
      simp
    · rw [if_neg h2, if_neg h2]
      by_cases hr : off + 2 ≤ buf.length
      · rw [readBytes_eq buf off 2 hr]
        dsimp only
        by_cases h8 : uintOfBytes bo ((buf.drop off).take 2) = 0x8100
        · rw [if_pos h8, if_pos h8]
          by_cases hr2 : sizeAdd off 2 + 4 ≤ buf.length
          · have hd : ((buf.drop (sizeAdd off 2)).take 4).length = 4 := by
              rw [List.length_take, List.length_drop]; omega
            rw [readBytes_eq buf _ 4 hr2]
            simp [Dot1qTag.setData, hd, hr, hr2]
          · have : readBytes buf (sizeAdd off 2) 4 = none := by
              unfold readBytes; rw [if_neg hr2]
            rw [this]
            simp only [List.mem_cons, List.mem_singleton, List.not_mem_nil, or_false,
              exists_eq_or_imp, exists_eq_left, true_iff, not_le]
            exact Or.inr (by omega)
        · rw [if_neg h8, if_neg h8]
          by_cases hr2 : sizeAdd off 2 + sizeSub (sizeSub len (sizeAdd off 2)) 4 ≤ buf.length
          · rw [readBytes_eq buf _ _ hr2]
            simp [hr, hr2]
          · have : readBytes buf (sizeAdd off 2) (sizeSub (sizeSub len (sizeAdd off 2)) 4) =
                none := by
              unfold readBytes; rw [if_neg hr2]
            rw [this]
            simp only [List.mem_cons, List.mem_singleton, List.not_mem_nil, or_false,
              exists_eq_or_imp, exists_eq_left, true_iff, not_le]
            exact Or.inr (by omega)
      · have : readBytes buf off 2 = none := by
          unfold readBytes; rw [if_neg hr]
        rw [this]
        simp only [List.mem_singleton, exists_eq_left, true_iff, not_le]
        omega

/-! ## Lemmas on the first version of the codec -/

theorem v1_crcBitLoop_eq (j c : Nat) : V1.crcBitLoop j c = crcBitLoop j c := by
  induction j generalizing c with
  | zero => rfl
  | succ j ih => rw [V1.crcBitLoop, crcBitLoop, ih]

theorem v1_crcByteLoop_eq (data : List Byte) (c : Nat) :
    V1.crcByteLoop data c = crcByteLoop data c := by
  induction data generalizing c with
  | nil => rfl
  | cons b rest ih => rw [V1.crcByteLoop, crcByteLoop, v1_crcBitLoop_eq, ih]

/-- Both versions compute the same CRC-32. -/
theorem v1_calculateCRC32_eq (data : List Byte) :
    V1.calculateCRC32 data = calculateCRC32 data := by
  unfold V1.calculateCRC32 calculateCRC32
  rw [v1_crcByteLoop_eq]

/-- On a frame that holds the data `b` of at least 4 bytes, `getFCS` reads the
last 4 bytes of `b`. -/
theorem getFCS_memcpy (bo : Endian) (buffer b : List Byte) (ps : List EthernetPayload)
    (h4 : 4 ≤ b.length) :
    getFCS bo { buffer := memcpy buffer b, length := b.length, payloads := ps } =
      some (uintOfBytes bo (b.drop (b.length - 4))) := by
  have hlen : b.length ≤ (memcpy buffer b).length := by
    unfold memcpy; rw [List.length_append]; omega
  unfold getFCS
  dsimp only
  rw [sizeSub_eq b.length 4 h4, readBytes_eq _ (b.length - 4) 4 (by omega),
    memcpy_checksum_bytes buffer b h4]
  rfl

theorem v1_getFCS_memcpy (bo : Endian) (buffer b : List Byte) (h4 : 4 ≤ b.length) :
    V1.getFCS bo { buffer := memcpy buffer b, length := b.length } =
      some (uintOfBytes bo (b.drop (b.length - 4))) := by
  have hlen : b.length ≤ (memcpy buffer b).length := by
    unfold memcpy; rw [List.length_append]; omega
  unfold V1.getFCS
  dsimp only
  rw [sizeSub_eq b.length 4 h4, readBytes_eq _ (b.length - 4) 4 (by omega),
    memcpy_checksum_bytes buffer b h4]
  rfl

theorem v1_validateFCS_memcpy (bo : Endian) (buffer b : List Byte) (h4 : 4 ≤ b.length) :
    V1.validateFCS bo { buffer := memcpy buffer b, length := b.length } =
      some (decide (calculateCRC32 (b.take (b.length - 4)) =
        uintOfBytes bo (b.drop (b.length - 4)))) := by
  have hlen : b.length ≤ (memcpy buffer b).length := by
    unfold memcpy; rw [List.length_append]; omega
  have hcov : ((memcpy buffer b).drop 0).take (b.length - 4) = b.take (b.length - 4) := by
    unfold memcpy
    rw [List.drop_zero, List.take_append_of_le_length (by omega)]
  unfold V1.validateFCS V1.getFCS
  dsimp only
  rw [sizeSub_eq b.length 4 h4, readBytes_eq _ 0 _ (by omega),
    readBytes_eq _ (b.length - 4) 4 (by omega), hcov, memcpy_checksum_bytes buffer b h4]
  simp only [Option.map_some', v1_calculateCRC32_eq]

/-! ## The remaining claims -/

/-- Claim C21: the mutators truncate and never fail. On a tag of 4 bytes, for
every `vid`, `setVLANIdentifier(vid)` returns and `getVLANIdentifier` then
reads `vid mod 4096`, with `getPriorityCodePoint` and
`getDropEligibleIndicator` as before; for every `pcp`,
`setPriorityCodePoint(pcp)` returns and `getPriorityCodePoint` then reads
`pcp mod 8`, with `getDropEligibleIndicator` and `getVLANIdentifier` as before. -/
theorem setters_truncate_keep_other_fields (bo : Endian) (data : List Byte) (vid pcp : Nat)
    (h : data.length = 4) :
    (∃ data2, Dot1qTag.setVLANIdentifier bo data vid = some data2 ∧
        Dot1qTag.getVLANIdentifier bo data2 = some (vid % 4096) ∧
        Dot1qTag.getPriorityCodePoint bo data2 = Dot1qTag.getPriorityCodePoint bo data ∧
        Dot1qTag.getDropEligibleIndicator bo data2 =
          Dot1qTag.getDropEligibleIndicator bo data) ∧
      (∃ data2, Dot1qTag.setPriorityCodePoint bo data pcp = some data2 ∧
        Dot1qTag.getPriorityCodePoint bo data2 = some (pcp % 8) ∧
        Dot1qTag.getDropEligibleIndicator bo data2 =
          Dot1qTag.getDropEligibleIndicator bo data ∧
        Dot1qTag.getVLANIdentifier bo data2 = Dot1qTag.getVLANIdentifier bo data) := by
  obtain ⟨ht, hlt⟩ := getTagControlInformation_eq bo data h
  obtain ⟨g1, g2, g3⟩ := getters_of_tci bo data _ ht hlt
  constructor
  · obtain ⟨d2, h1, -, -, h4, h5⟩ := write_spec bo data _ (TciWrite.vlanIdentifier vid) h ht hlt
    obtain ⟨k1, k2, k3⟩ := getters_of_tci bo d2 _ h4 h5
    refine ⟨d2, h1, ?_, ?_, ?_⟩
    · rw [k3]
      simp only [tciAfter]
      congr 1
      omega
    · rw [k1, g1]
      simp only [tciAfter]
      congr 1
      omega
    · rw [k2, g2]
      simp only [tciAfter]
      congr 2
      apply propext
      constructor <;> intro hx <;> omega
  · obtain ⟨d2, h1, -, -, h4, h5⟩ :=
      write_spec bo data _ (TciWrite.priorityCodePoint pcp) h ht hlt
    obtain ⟨k1, k2, k3⟩ := getters_of_tci bo d2 _ h4 h5
    refine ⟨d2, h1, ?_, ?_, ?_⟩
    · rw [k1]
      simp only [tciAfter]
      congr 1
      omega
    · rw [k2, g2]
      simp only [tciAfter]
      congr 2
      apply propext
      constructor <;> intro hx <;> omega
    · rw [k3, g3]
      simp only [tciAfter]
      congr 1
      omega

/-- Witness for C21: `setVLANIdentifier(0xffff)` and `setPriorityCodePoint(0xff)`
on the tag of the tagged sample frame. -/
theorem setters_truncate_keep_other_fields_witness :
    (∃ data2, Dot1qTag.setVLANIdentifier Endian.little [0x12, 0x34, 0xc8, 0xb0] 0xffff =
          some data2 ∧
        Dot1qTag.getVLANIdentifier Endian.little data2 = some (0xffff % 4096) ∧
        Dot1qTag.getPriorityCodePoint Endian.little data2 =
          Dot1qTag.getPriorityCodePoint Endian.little [0x12, 0x34, 0xc8, 0xb0] ∧
        Dot1qTag.getDropEligibleIndicator Endian.little data2 =
          Dot1qTag.getDropEligibleIndicator Endian.little [0x12, 0x34, 0xc8, 0xb0]) ∧
      (∃ data2, Dot1qTag.setPriorityCodePoint Endian.little [0x12, 0x34, 0xc8, 0xb0] 0xff =
          some data2 ∧
        Dot1qTag.getPriorityCodePoint Endian.little data2 = some (0xff % 8) ∧
        Dot1qTag.getDropEligibleIndicator Endian.little data2 =
          Dot1qTag.getDropEligibleIndicator Endian.little [0x12, 0x34, 0xc8, 0xb0] ∧
        Dot1qTag.getVLANIdentifier Endian.little data2 =
          Dot1qTag.getVLANIdentifier Endian.little [0x12, 0x34, 0xc8, 0xb0]) :=
  setters_truncate_keep_other_fields Endian.little [0x12, 0x34, 0xc8, 0xb0] 0xffff 0xff
    (by decide)

/-- Claim C22: on a frame of length at least 5 (inside its buffer) for which
`validateFCS` is true, flipping any single bit of the covered bytes
`buffer[0 .. length-4)`, the last 4 bytes being left as they are, makes
`validateFCS` false; and the CRC-32 of any data and of the same data with one
bit flipped are never equal. -/
theorem validateFCS_detects_single_bit (bo : Endian) (f : EthernetFrame) (k : Nat)
    (h5 : 5 ≤ f.length) (hbuf : f.length ≤ f.buffer.length)
    (hvalid : validateFCS bo f = some true) (hk : k < 8 * (f.length - 4)) :
    validateFCS bo { f with buffer := flipBitAt f.buffer k } = some false ∧
      ((flipBitAt f.buffer k).drop (f.length - 4)).take 4 =
        (f.buffer.drop (f.length - 4)).take 4 ∧
      ∀ (a : List Byte) (j : Nat), j < 8 * a.length →
        (flipBitAt a j).length = a.length ∧
        calculateCRC32 (flipBitAt a j) ≠ calculateCRC32 a := by
  have hdrop : (flipBitAt f.buffer k).drop (f.length - 4) = f.buffer.drop (f.length - 4) := by
    unfold flipBitAt
    exact List.drop_set_of_lt _ _ (by omega)
  have hcov : ((flipBitAt f.buffer k).drop 0).take (f.length - 4) =
      flipBitAt ((f.buffer.drop 0).take (f.length - 4)) k := by
    rw [List.drop_zero, List.drop_zero]
    exact flipBitAt_take f.buffer k _ (by omega)
  have hclen : ((f.buffer.drop 0).take (f.length - 4)).length = f.length - 4 := by
    rw [List.drop_zero, List.length_take]; omega
  refine ⟨?_, by rw [hdrop], fun a j hj => ⟨flipBitAt_length a j,
    calculateCRC32_flipBitAt_ne a j hj⟩⟩
  unfold validateFCS getFCS at hvalid ⊢
  dsimp only at hvalid ⊢
  rw [sizeSub_eq f.length 4 (by omega), readBytes_eq _ 0 _ (by omega),
    readBytes_eq _ (f.length - 4) 4 (by omega)] at hvalid
  rw [sizeSub_eq f.length 4 (by omega),
    readBytes_eq _ 0 _ (by rw [flipBitAt_length]; omega),
    readBytes_eq _ (f.length - 4) 4 (by rw [flipBitAt_length]; omega), hdrop, hcov]
  simp only [Option.map_some', Option.some.injEq, decide_eq_true_eq] at hvalid
  simp only [Option.map_some', Option.some.injEq, decide_eq_false_iff_not]
  rw [← hvalid]
  exact calculateCRC32_flipBitAt_ne _ k (by rw [hclen]; exact hk)

/-- Witness for C22: bit 100 of the loaded sample frame (bit 4 of byte 12). -/
theorem validateFCS_detects_single_bit_witness :
    validateFCS Endian.little sampleLoaded = some true ∧
      validateFCS Endian.little { sampleLoaded with buffer := flipBitAt sampleLoaded.buffer 100 } =
        some false ∧
      ((flipBitAt sampleLoaded.buffer 100).drop (sampleLoaded.length - 4)).take 4 =
        (sampleLoaded.buffer.drop (sampleLoaded.length - 4)).take 4 ∧
      ∀ (a : List Byte) (j : Nat), j < 8 * a.length →
        (flipBitAt a j).length = a.length ∧
        calculateCRC32 (flipBitAt a j) ≠ calculateCRC32 a :=
  ⟨by decide!,
    validateFCS_detects_single_bit Endian.little sampleLoaded 100 (by decide) (by decide!)
      (by decide!) (by decide)⟩

/-- Claim C23: for data of at least 4 and at most 1518 bytes `setFrame` ends
without a read outside the buffer, and in every pass of its loop each read of
the buffer (the type tag, the 4 bytes of a `Dot1qTag`, the bytes of a generic
payload) covers indices `i` with `12 ≤ i < length` only, and no `size_t`
subtraction (`length - 4`, `length - offset - 4`) wraps around. -/
theorem parse_reads_in_bounds (bo : Endian) (f : EthernetFrame) (b : List Byte)
    (h4 : 4 ≤ b.length) (hmax : b.length ≤ MAX_FRAME_SIZE) :
    (∃ o g, setFrame bo f b = some (o, g) ∧ o ≠ Outcome.outsideBuffer) ∧
      ∀ n off ps, loopHead bo (memcpy f.buffer b) b.length n = some (off, ps) →
        (∀ r ∈ loopBodyReads bo (memcpy f.buffer b) b.length off,
          12 ≤ r.1 ∧ r.1 + r.2 ≤ b.length) ∧
        (∀ s ∈ loopBodySubtractions bo (memcpy f.buffer b) b.length off, s.2 ≤ s.1) := by
  unfold MAX_FRAME_SIZE at hmax
  have hbuf : b.length ≤ (memcpy f.buffer b).length := by
    unfold memcpy; rw [List.length_append]; omega
  constructor
  · obtain ⟨r, hr⟩ := parseLoop_total bo b b.length hmax MAX_FRAME_SIZE 12 []
      (by unfold MAX_FRAME_SIZE; omega) (by unfold MAX_FRAME_SIZE; omega)
    refine ⟨r.1, _, (setFrame_eq_some_loaded bo f _ b _ h4 hmax).2 ⟨r.2, hr, rfl⟩, ?_⟩
    intro ho
    apply parseLoop_ne_outsideBuffer bo b b.length h4 hmax (le_refl _) MAX_FRAME_SIZE 12 [] r.2
    rw [hr, ← ho]
  · intro n off ps hhead
    have hhead2 : loopHead bo b b.length n = some (off, ps) := by
      unfold memcpy at hhead
      rw [loopHead_append bo b _ h4 hmax] at hhead
      exact hhead
    have h12 := loopHead_offset_ge bo b b.length hmax n off ps hhead2
    exact ⟨fun r hr => loopBodyReads_bounds bo _ b.length off h4 hmax hbuf (by omega) r hr,
      fun s hs => loopBodySubtractions_bounds bo _ b.length off h4 hmax hbuf s hs⟩

/-- Witness for C23: the second pass over the sample frame, at offset 18, reads
the type tag at 18 and 19 and the payload at 20 to 23, of 28 bytes loaded. -/
theorem parse_reads_in_bounds_witness :
    loopHead Endian.little (memcpy EthernetFrame.new.buffer sampleFrame) sampleFrame.length 1 =
        some (18, [EthernetPayload.dot1qTag [0x00, 0x64, 0x08, 0x00]]) ∧
      loopBodyReads Endian.little (memcpy EthernetFrame.new.buffer sampleFrame)
        sampleFrame.length 18 = [(18, 2), (20, 4)] ∧
      (∀ r ∈ loopBodyReads Endian.little (memcpy EthernetFrame.new.buffer sampleFrame)
          sampleFrame.length 18, 12 ≤ r.1 ∧ r.1 + r.2 ≤ sampleFrame.length) ∧
      (∀ s ∈ loopBodySubtractions Endian.little (memcpy EthernetFrame.new.buffer sampleFrame)
          sampleFrame.length 18, s.2 ≤ s.1) :=
  ⟨by decide!, by decide!,
    (parse_reads_in_bounds Endian.little EthernetFrame.new sampleFrame (by decide)
      (by decide!)).2 1 18 [EthernetPayload.dot1qTag [0x00, 0x64, 0x08, 0x00]] (by decide!)⟩

/-- Claim C24: for data of at least 18 and at most 1518 bytes whose type field
at offset 12 is not `0x8100`, both versions of `setFrame` return; the second
version has exactly one payload, generic, whose type is the `type` of the
header of the first version and whose data are the `getPayloadSize()`
(`length - 14 - 4`) bytes at `getPayload()` of the first version; and both
versions give the same destination and source, the same `getFCS()` and the
same `validateFCS()`. -/
theorem versions_agree_untagged (bo : Endian) (f1 : V1.EthernetFrame) (f2 : EthernetFrame)
    (b : List Byte) (h18 : 18 ≤ b.length) (hmax : b.length ≤ MAX_FRAME_SIZE)
    (ht : uintOfBytes bo ((b.drop 12).take 2) ≠ 0x8100) :
    ∃ g1 g2 d, V1.setFrame f1 b = (Outcome.returned, g1) ∧
      setFrame bo f2 b = some (Outcome.returned, g2) ∧
      getPayloads g2 = [EthernetPayload.generic (V1.getHeader bo g1).type d] ∧
      V1.getPayload g1 = some d ∧
      V1.getPayloadSize g1 = b.length - 14 - 4 ∧ d.length = b.length - 14 - 4 ∧
      (V1.getHeader bo g1).destination = (getHeader g2).destination ∧
      (V1.getHeader bo g1).source = (getHeader g2).source ∧
      V1.getFCS bo g1 = getFCS bo g2 ∧ V1.validateFCS bo g1 = validateFCS bo g2 ∧
      (∃ v w, getFCS bo g2 = some v ∧ validateFCS bo g2 = some w) := by
  unfold MAX_FRAME_SIZE at hmax
  have hlen1 : b.length ≤ (memcpy f1.buffer b).length := by
    unfold memcpy; rw [List.length_append]; omega
  have htype : ((memcpy f1.buffer b).drop 12).take 2 = (b.drop 12).take 2 := by
    unfold memcpy
    exact slice_append b _ 12 2 (by omega)
  have hd : ((b.drop (12 + 2)).take (b.length - (12 + 2) - 4)).length = b.length - 14 - 4 := by
    rw [List.length_take, List.length_drop]; omega
  have hsize : V1.getPayloadSize { buffer := memcpy f1.buffer b, length := b.length } =
      b.length - 14 - 4 := by
    unfold V1.getPayloadSize
    dsimp only
    rw [sizeSub_eq b.length 14 (by omega), sizeSub_eq (b.length - 14) 4 (by omega)]
  refine ⟨{ buffer := memcpy f1.buffer b, length := b.length },
    { buffer := memcpy f2.buffer b, length := b.length,
      payloads := [EthernetPayload.generic (uintOfBytes bo ((b.drop 12).take 2))
        ((b.drop (12 + 2)).take (b.length - (12 + 2) - 4))] },
    (b.drop (12 + 2)).take (b.length - (12 + 2) - 4), ?_, ?_, ?_, ?_, hsize, hd, ?_, ?_, ?_, ?_, ?_⟩
  · unfold V1.setFrame
    rw [if_neg (by unfold MAX_FRAME_SIZE; omega)]
  · refine (setFrame_eq_some_loaded bo f2 _ b _ (by omega) hmax).2 ⟨_, ?_, rfl⟩
    have e : MAX_FRAME_SIZE = 1516 + 1 + 1 := rfl
    rw [e, parseLoop, loopBody_generic bo b b.length 12 [] hmax (le_refl _) (by omega) ht]
    dsimp only
    rw [parseLoop, loopBody_exit bo b b.length (b.length - 4) _ (by omega) (le_refl _)]
    rfl
  · unfold getPayloads V1.getHeader
    dsimp only
    rw [htype]
  · unfold V1.getPayload
    rw [hsize]
    dsimp only
    rw [readBytes_eq _ 14 _ (by omega)]
    unfold memcpy
    rw [slice_append b _ 14 _ (by omega)]
  · unfold V1.getHeader getHeader memcpy
    dsimp only
    rw [List.take_append_of_le_length (by omega), List.take_append_of_le_length (by omega)]
  · unfold V1.getHeader getHeader memcpy
    dsimp only
    rw [slice_append b _ 6 6 (by omega), slice_append b _ 6 6 (by omega)]
  · rw [v1_getFCS_memcpy bo f1.buffer b (by omega), getFCS_memcpy bo f2.buffer b _ (by omega)]
  · rw [v1_validateFCS_memcpy bo f1.buffer b (by omega),
      validateFCS_memcpy bo f2.buffer b _ (by omega)]
  · exact ⟨_, _, getFCS_memcpy bo f2.buffer b _ (by omega),
      validateFCS_memcpy bo f2.buffer b _ (by omega)⟩

/-- Witness for C24: the 22-byte frame with type tag `0x0800` on fresh frames
of both versions. -/
theorem versions_agree_untagged_witness :
    uintOfBytes Endian.little ((plainFrame.drop 12).take 2) = 0x0800 ∧
      ∃ g1 g2 d, V1.setFrame V1.EthernetFrame.new plainFrame = (Outcome.returned, g1) ∧
        setFrame Endian.little EthernetFrame.new plainFrame = some (Outcome.returned, g2) ∧
        getPayloads g2 = [EthernetPayload.generic (V1.getHeader Endian.little g1).type d] ∧
        V1.getPayload g1 = some d ∧
        V1.getPayloadSize g1 = plainFrame.length - 14 - 4 ∧
        d.length = plainFrame.length - 14 - 4 ∧
        (V1.getHeader Endian.little g1).destination = (getHeader g2).destination ∧
        (V1.getHeader Endian.little g1).source = (getHeader g2).source ∧
        V1.getFCS Endian.little g1 = getFCS Endian.little g2 ∧
        V1.validateFCS Endian.little g1 = validateFCS Endian.little g2 ∧
        (∃ v w, getFCS Endian.little g2 = some v ∧ validateFCS Endian.little g2 = some w) :=
  ⟨by decide!,
    versions_agree_untagged Endian.little V1.EthernetFrame.new EthernetFrame.new plainFrame
      (by decide) (by decide!) (by decide!)⟩

end NetworkingForDevs
